import Mathlib

/-!
Verification of the ecommerce-migration-helper hit decoders, schema
classifier and recommendation renderer.

The JavaScript sources are embedded shallowly:

* URLs and string values are `List Char` / `String`;
* JavaScript objects written to by `obj[key] = value` are association
  lists (`jsSet` updates in place, preserving first-insertion order,
  exactly as JS own-property order behaves for the non-index string
  keys used by the code);
* the `matchAll` loops over the global regexes of `ga4.js` and
  `measurement_protocol.js` become explicit left-to-right scanners
  (`scanWith`): at each position a `try` function either recognises a
  match (returning it together with the remaining characters after the
  match extent, which mirrors `lastIndex` advancement) or the scan
  moves one character forward;
* fallible JavaScript evaluation (the classifier can dereference
  `undefined`) is `Except Unit`.
-/

/-- Association list used to model JavaScript object property writes:
`jsSet m k v` updates the value of `k` in place if present (keeping its
position, as JS keeps first-insertion order), otherwise appends. -/
def jsSet {α : Type} (m : List (String × α)) (k : String) (v : α) :
    List (String × α) :=
  match m with
  | [] => [(k, v)]
  | (k0, v0) :: t => if k0 = k then (k0, v) :: t else (k0, v0) :: jsSet t k v

/-- JavaScript `\w` character class: ASCII letters, digits and underscore. -/
def isWordCh (c : Char) : Bool :=
  c.isAlpha || c.isDigit || c = '_'

/-- Characters matched by the JavaScript regex `.` (no line terminators). -/
def dotCh (c : Char) : Bool :=
  !(c = '\n' || c = '\r' || c.toNat = 0x2028 || c.toNat = 0x2029)

/-- Model of `String.prototype.split(sep)` on character lists; always
returns a non-empty list of pieces. -/
def splitCh (sep : Char) : List Char → List (List Char)
  | [] => [[]]
  | c :: cs =>
    match splitCh sep cs with
    | [] => [[]]
    | h :: t => if c = sep then [] :: h :: t else (c :: h) :: t

/-- Generic model of iterating `url.matchAll(regex)` for the regexes of
this repository: at each position `tryM` either produces a match and the
suffix after its extent (the new `lastIndex`), or the scan advances one
character.  The fuel argument is initialised to the string length, which
is enough since every step consumes at least one character. -/
def scanWith {σ : Type} (tryM : List Char → Option (σ × List Char)) :
    Nat → List Char → List σ
  | 0, _ => []
  | _ + 1, [] => []
  | fuel + 1, c :: cs =>
    match tryM (c :: cs) with
    | some (r, rest) => r :: scanWith tryM fuel rest
    | none => scanWith tryM fuel cs

/-- Run a scanner over a whole character list. -/
def runScan {σ : Type} (tryM : List Char → Option (σ × List Char))
    (s : List Char) : List σ :=
  scanWith tryM s.length s

/-- Decidable substring test (the effect of `regex.test` for a regex
that is a string literal, and of `indexOf`-style containment). -/
def containsSub (pat : List Char) : List Char → Bool
  | [] => pat.isEmpty
  | c :: cs => pat.isPrefixOf (c :: cs) || containsSub pat cs

/-- An `EventRecord` field holding one decoded product: canonical field
name, mapped to the captured string value. -/
abbrev Product := List (String × String)

/-- Impression list entry of the Protocol-B decoder
(`measurement_protocol.js`): optional `name` plus an indexed mapping of
impressions. -/
structure ImpList where
  name : Option String := none
  impressions : List (String × Product) := []
deriving DecidableEq, Repr

/-- Structured event record produced by both decoders (`parsedData` in
the sources).  Indexed collections are keyed by the captured index
digits (the exact JS property key).  `Option.none` models a field the
source never assigned. -/
structure EventRecord where
  event : Option String := none
  products : List (String × Product) := []
  impressions : Option (List (String × ImpList)) := none
  promos : Option (List (String × Product)) := none
  params : Option (List (String × String)) := none
deriving DecidableEq, Repr

namespace Ga4

/-- Code table `GA4_PRODUCT_FIELDS` of `ga4.js`. -/
def GA4_PRODUCT_FIELDS (code : String) : Option String :=
  match code with
  | "id" => some "item_id"
  | "nm" => some "item_name"
  | "br" => some "item_brand"
  | "ca" => some "item_category"
  | "c2" => some "item_category2"
  | "c3" => some "item_category3"
  | "c4" => some "item_category4"
  | "c5" => some "item_category5"
  | "va" => some "item_variant"
  | "pr" => some "price"
  | "qt" => some "quantity"
  | "cp" => some "coupon"
  | "ln" => some "item_list_name"
  | "li" => some "item_list_id"
  | "lp" => some "index"
  | "ds" => some "discount"
  | "af" => some "affiliation"
  | "pi" => some "promotion_id"
  | "pn" => some "promotion_name"
  | "cn" => some "creative_name"
  | "cs" => some "creative_slot"
  | "lo" => some "Location ID"
  | _ => none

/-- Property key actually used by `product[GA4_PRODUCT_FIELDS[code]]`:
a miss in the table gives the JS value `undefined`, which property
assignment stringifies to the literal key "undefined". -/
def fieldKey (code : String) : String :=
  (GA4_PRODUCT_FIELDS code).getD "undefined"

/-- Matcher for `GA4_PRODUCT_REGEX = /&pr(\d+)=([^&]*)/g`: literal
`&pr`, one or more digits (greedy; backtracking cannot help since `=`
is not a digit), literal `=`, then a run of non-`&` characters.
Returns ((index digits, payload), suffix after the match). -/
def tryPrA (s : List Char) :
    Option ((List Char × List Char) × List Char) :=
  if ("&pr".toList).isPrefixOf s then
    let t := s.drop 3
    let ds := t.takeWhile Char.isDigit
    if ds.isEmpty then none
    else
      match t.drop ds.length with
      | '=' :: r =>
        let v := r.takeWhile (fun c => c ≠ '&')
        some ((ds, v), r.drop v.length)
      | _ => none
  else none

/-- Matcher for `GA4_PARAM_REGEX = /&epn?\.([^=]+)=([^&]*)/g`.  The
greedy optional `n` is tried first, then the literal dot; the parameter
name is a non-empty run of non-`=` characters (it may contain `&`). -/
def tryEp (s : List Char) :
    Option ((List Char × List Char) × List Char) :=
  if ("&ep".toList).isPrefixOf s then
    let t := s.drop 3
    let afterDot : Option (List Char) :=
      match t with
      | 'n' :: '.' :: r => some r
      | '.' :: r => some r
      | _ => none
    match afterDot with
    | none => none
    | some r =>
      let nm := r.takeWhile (fun c => c ≠ '=')
      if nm.isEmpty then none
      else
        match r.drop nm.length with
        | '=' :: r2 =>
          let v := r2.takeWhile (fun c => c ≠ '&')
          some ((nm, v), r2.drop v.length)
        | _ => none
  else none

/-- Matcher for `GA4_EVENT_NAME_REGEX = /&en=([^&]*)/g`. -/
def tryEn (s : List Char) : Option (List Char × List Char) :=
  if ("&en=".toList).isPrefixOf s then
    let r := s.drop 4
    let v := r.takeWhile (fun c => c ≠ '&')
    some (v, r.drop v.length)
  else none

/-- Tilde-unescape loop of `ga4.js` lines 82-88, written on the list of
split parts.  While the part after the current one is empty, a literal
`~` is appended, then the part after that (if non-empty in JS; appending
an empty part is the same as appending nothing), and the scan advances
past both. -/
def unescGo (acc : List Char) : List (List Char) → List (List Char)
  | [] => [acc]
  | p :: rest =>
    if p.isEmpty then
      match rest with
      | [] => [acc ++ ['~']]
      | q :: rest2 => unescGo (acc ++ '~' :: q) rest2
    else acc :: unescGo p rest

/-- Unescape a full list of split parts. -/
def unescParts : List (List Char) → List (List Char)
  | [] => []
  | p :: rest => unescGo p rest

/-- Fold step for one product part (line 89-90 of `ga4.js`): the first
two characters are the code, the rest the value. -/
def partStep (prod : Product) (part : List Char) : Product :=
  jsSet prod (fieldKey (part.take 2).asString) (part.drop 2).asString

/-- Decode one `&pr<N>=<payload>` payload into a Product: split on `~`,
recover escaped tildes, then map each part's two-character code through
the table (`substring(0,2)` / `substring(2)`). -/
def decodePayload (payload : List Char) : Product :=
  (unescParts (splitCh '~' payload)).foldl partStep []

/-- Fold step storing one product match (line 92 of `ga4.js`): the
freshly decoded product replaces any previous one at the same index. -/
def productStep (ps : List (String × Product))
    (m : List Char × List Char) : List (String × Product) :=
  jsSet ps m.1.asString (decodePayload m.2)

/-- Fold step storing one event parameter match. -/
def paramStep (m : List (String × String)) (p : List Char × List Char) :
    List (String × String) :=
  jsSet m p.1.asString p.2.asString

/-- Shallow embedding of `parse` from `ga4.js`.  `products` is always
initialised; `params` is always assigned (matchAll iterators are
truthy); `event` is only set when the event-name scan has a first
match. -/
def parse (url : String) : EventRecord :=
  let s := url.toList
  let products := (runScan tryPrA s).foldl productStep []
  let params := (runScan tryEp s).foldl paramStep []
  let ens := runScan tryEn s
  { event := ens.head?.map (·.asString)
    products := products
    params := some params }

/-- Shallow embedding of `isGa4Hit`: `GA4_URL_REGEX = /\/g\/collect\?/`
is a pure substring test. -/
def isGa4Hit (url : String) : Bool :=
  containsSub ("/g/collect?".toList) url.toList

end Ga4

namespace MP

/-- Code table `UA_PRODUCT_FIELDS` of `measurement_protocol.js`. -/
def UA_PRODUCT_FIELDS (code : String) : Option String :=
  match code with
  | "id" => some "item_id"
  | "nm" => some "item_name"
  | "br" => some "item_brand"
  | "ca" => some "item_category"
  | "va" => some "item_variant"
  | "qt" => some "quantity"
  | "pr" => some "price"
  | "cc" => some "coupon"
  | "ps" => some "index"
  | _ => none

/-- Code table `UA_IMPRESSION_FIELDS` of `measurement_protocol.js`. -/
def UA_IMPRESSION_FIELDS (code : String) : Option String :=
  match code with
  | "id" => some "item_id"
  | "nm" => some "item_name"
  | "br" => some "item_brand"
  | "ca" => some "item_category"
  | "va" => some "item_variant"
  | "ps" => some "index"
  | "pr" => some "price"
  | _ => none

/-- Code table `UA_PROMOTION_FIELDS` of `measurement_protocol.js`. -/
def UA_PROMOTION_FIELDS (code : String) : Option String :=
  match code with
  | "id" => some "item_id"
  | "nm" => some "item_name"
  | "cr" => some "creative_name"
  | "ps" => some "index"
  | _ => none

/-- Code table `UA_PARAMS` of `measurement_protocol.js`. -/
def UA_PARAMS (code : String) : Option String :=
  match code with
  | "pa" => some "product_action"
  | "ti" => some "transaction_id"
  | "ta" => some "affiliation"
  | "tr" => some "value"
  | "tt" => some "tax"
  | "ts" => some "shipping"
  | "tcc" => some "coupon"
  | "pal" => some "item_list_name"
  | "cos" => some "checkout_step"
  | "col" => some "checkout_option"
  | "promoa" => some "promo_action"
  | "cu" => some "currency"
  | _ => none

/-- Head character test at offset `j`. -/
def chAt (t : List Char) (j : Nat) (p : Char → Bool) : Bool :=
  match t.drop j with
  | c :: _ => p c
  | [] => false

/-- Matcher for `UA_PRODUCT_REGEX = /&pr(\d+)(\w\w)=?([^&]*)/g`.
After `&pr`, `\d+` is greedy and backtracks against `(\w\w)`: with `k`
the maximal digit-run length, the engine succeeds with the largest
`i ≥ 1` such that the two characters after the first `i` are word
characters.  Since digits are word characters this is `k` when the two
following characters are word characters, else `k-1` when the one
following character is (needs `k ≥ 2`), else `k-2` (needs `k ≥ 3`).
The `=?` then consumes an optional `=` and the value is a possibly
empty run of non-`&` characters. -/
def tryUaPr (s : List Char) :
    Option ((List Char × List Char × List Char) × List Char) :=
  if ("&pr".toList).isPrefixOf s then
    let t := s.drop 3
    let k := (t.takeWhile Char.isDigit).length
    if k = 0 then none
    else
      let iOpt : Option Nat :=
        if chAt t k isWordCh && chAt t (k + 1) isWordCh then some k
        else if 2 ≤ k && chAt t k isWordCh then some (k - 1)
        else if 3 ≤ k then some (k - 2)
        else none
      match iOpt with
      | none => none
      | some i =>
        let idx := t.take i
        let code := (t.drop i).take 2
        let r0 := t.drop (i + 2)
        let r := match r0 with
          | '=' :: r1 => r1
          | _ => r0
        let v := r.takeWhile (fun c => c ≠ '&')
        some ((idx, code, v), r.drop v.length)
  else none

/-- Matcher for `UA_LIST_NAME_REGEX = /&il(\d+)nm=([^&]*)/g`.  The
digit run cannot backtrack usefully (a digit is never `n`), so the
literal `nm=` must follow the maximal run. -/
def tryIlNm (s : List Char) :
    Option ((List Char × List Char) × List Char) :=
  if ("&il".toList).isPrefixOf s then
    let t := s.drop 3
    let ds := t.takeWhile Char.isDigit
    if ds.isEmpty then none
    else if ("nm=".toList).isPrefixOf (t.drop ds.length) then
      let r := t.drop (ds.length + 3)
      let v := r.takeWhile (fun c => c ≠ '&')
      some ((ds, v), r.drop v.length)
    else none
  else none

/-- Matcher for `UA_IMPRESSION_REGEX = /&il(\d+)pi(\d+)(\w\w)=([^&]*)/g`.
The first digit run is maximal (it cannot backtrack into the literal
`pi`); the second digit run backtracks against `(\w\w)=` as in
`tryUaPr`, except that the `=` is mandatory, which makes the three
candidate splits mutually exclusive. -/
def tryIlPi (s : List Char) :
    Option ((List Char × List Char × List Char × List Char) × List Char) :=
  if ("&il".toList).isPrefixOf s then
    let t := s.drop 3
    let d1 := t.takeWhile Char.isDigit
    if d1.isEmpty then none
    else if ("pi".toList).isPrefixOf (t.drop d1.length) then
      let t2 := t.drop (d1.length + 2)
      let k := (t2.takeWhile Char.isDigit).length
      if k = 0 then none
      else
        let iOpt : Option Nat :=
          if chAt t2 k isWordCh && chAt t2 (k + 1) isWordCh &&
              chAt t2 (k + 2) (fun c => c = '=') then some k
          else if 2 ≤ k && chAt t2 k isWordCh &&
              chAt t2 (k + 1) (fun c => c = '=') then some (k - 1)
          else if 3 ≤ k && chAt t2 k (fun c => c = '=') then some (k - 2)
          else none
        match iOpt with
        | none => none
        | some i =>
          let d2 := t2.take i
          let code := (t2.drop i).take 2
          let r := t2.drop (i + 3)
          let v := r.takeWhile (fun c => c ≠ '&')
          some ((d1, d2, code, v), r.drop v.length)
    else none
  else none

/-- Matcher for `UA_PROMO_REGEX = /&promo(\d+)(\w\w)=([^&]*)/g` (same
backtracking shape as the impression matcher's tail). -/
def tryPromo (s : List Char) :
    Option ((List Char × List Char × List Char) × List Char) :=
  if ("&promo".toList).isPrefixOf s then
    let t := s.drop 6
    let k := (t.takeWhile Char.isDigit).length
    if k = 0 then none
    else
      let iOpt : Option Nat :=
        if chAt t k isWordCh && chAt t (k + 1) isWordCh &&
            chAt t (k + 2) (fun c => c = '=') then some k
        else if 2 ≤ k && chAt t k isWordCh &&
            chAt t (k + 1) (fun c => c = '=') then some (k - 1)
        else if 3 ≤ k && chAt t k (fun c => c = '=') then some (k - 2)
        else none
      match iOpt with
      | none => none
      | some i =>
        let idx := t.take i
        let code := (t.drop i).take 2
        let r := t.drop (i + 3)
        let v := r.takeWhile (fun c => c ≠ '&')
        some ((idx, code, v), r.drop v.length)
  else none

/-- Alternatives of `UA_PARAMS_REGEX`, in the source's order (the JS
engine tries them left to right, so `pa` shadows nothing: each
alternative must be followed by `=`). -/
def uaParamCodes : List String :=
  ["pa", "ti", "ta", "tr", "tt", "ts", "tcc", "pal", "cos", "col",
   "promoa", "cu"]

/-- Matcher for
`UA_PARAMS_REGEX = /&(pa|ti|ta|tr|tt|ts|tcc|pal|cos|col|promoa|cu)=([^&]*)/g`. -/
def tryUaParams (s : List Char) :
    Option ((String × List Char) × List Char) :=
  match s with
  | '&' :: r =>
    match uaParamCodes.find? (fun c =>
        (c.toList).isPrefixOf r &&
        chAt r c.length (fun x => x = '=')) with
    | some c =>
      let r2 := r.drop (c.length + 1)
      let v := r2.takeWhile (fun x => x ≠ '&')
      some ((c, v), r2.drop v.length)
    | none => none
  | _ => none

/-- Fold step for one product-field match (lines 134-141 of
`measurement_protocol.js`): fetch or create the product at the captured
index, merge the decoded field, store it back. -/
def prStep (ps : List (String × Product))
    (m : List Char × List Char × List Char) : List (String × Product) :=
  let idx := m.1.asString
  let product := (ps.lookup idx).getD []
  jsSet ps idx
    (jsSet product ((UA_PRODUCT_FIELDS m.2.1.asString).getD "undefined")
      m.2.2.asString)

/-- Fold step for one impression-list-name match (lines 147-157). -/
def ilNmStep (is : List (String × ImpList)) (m : List Char × List Char) :
    List (String × ImpList) :=
  let idx := m.1.asString
  let il := (is.lookup idx).getD {}
  jsSet is idx { il with name := some m.2.asString }

/-- Fold step for one impression-field match (lines 163-176). -/
def ilPiStep (is : List (String × ImpList))
    (m : List Char × List Char × List Char × List Char) :
    List (String × ImpList) :=
  let idx := m.1.asString
  let il := (is.lookup idx).getD {}
  let impIdx := m.2.1.asString
  let imp := (il.impressions.lookup impIdx).getD []
  let imp2 :=
    jsSet imp ((UA_IMPRESSION_FIELDS m.2.2.1.asString).getD "undefined")
      m.2.2.2.asString
  jsSet is idx { il with impressions := jsSet il.impressions impIdx imp2 }

/-- Fold step for one promotion-field match (lines 182-189). -/
def promoStep (ps : List (String × Product))
    (m : List Char × List Char × List Char) : List (String × Product) :=
  let idx := m.1.asString
  let promo := (ps.lookup idx).getD []
  jsSet ps idx
    (jsSet promo ((UA_PROMOTION_FIELDS m.2.1.asString).getD "undefined")
      m.2.2.asString)

/-- Fold step for one action-parameter match (lines 195-199). -/
def uaParamStep (m : List (String × String)) (p : String × List Char) :
    List (String × String) :=
  jsSet m ((UA_PARAMS p.1).getD "undefined") p.2.asString

/-- Shallow embedding of `parse` from `measurement_protocol.js`.  All
five scans run over the whole URL; `impressions`, `promos` and `params`
are always assigned (matchAll iterators are truthy), the indexed scans
fetch-or-create the entry at the captured index and merge the decoded
field into it. -/
def parse (url : String) : EventRecord :=
  let s := url.toList
  let products := (runScan tryUaPr s).foldl prStep []
  let imps0 := (runScan tryIlNm s).foldl ilNmStep []
  let imps := (runScan tryIlPi s).foldl ilPiStep imps0
  let promos := (runScan tryPromo s).foldl promoStep []
  let params := (runScan tryUaParams s).foldl uaParamStep []
  { products := products
    impressions := some imps
    promos := some promos
    params := some params }

/-- Scan for a match of `/\/collect\?.*&el=<label>/`: some position
starts with `/collect?` and the label parameter occurs within the
following run of `.`-matchable characters. -/
def uaTest (pat : List Char) : List Char → Bool
  | [] => false
  | c :: cs =>
    (("/collect?".toList).isPrefixOf (c :: cs) &&
      containsSub pat (((c :: cs).drop 9).takeWhile dotCh)) ||
    uaTest pat cs

/-- Shallow embedding of `isUaLegacyHit` (`UA_LEGACY_REGEX`). -/
def isUaLegacyHit (url : String) : Bool :=
  uaTest ("&el=GTM".toList) url.toList

/-- Shallow embedding of `isUaGa4Hit` (`UA_GA4_REGEX`). -/
def isUaGa4Hit (url : String) : Bool :=
  uaTest ("&el=GA4".toList) url.toList

end MP

/-! Model of the JavaScript values inspected by `identifySchema`
(`schema_id.js`).  Numbers are modelled as integers; the classifier
only ever produces numbers as array/string lengths, and only consumes
them through truthiness and the loop bound, so no float-specific
behaviour is exercised.  Functions appear only as the `push` method
probed for array-likeness. -/

inductive JSVal : Type
  | undefined : JSVal
  | null : JSVal
  | boolean : Bool → JSVal
  | num : Int → JSVal
  | str : String → JSVal
  | fn : JSVal
  | arr : List JSVal → JSVal
  | obj : List (String × JSVal) → JSVal

/-- JavaScript truthiness of a modelled value. -/
def truthy : JSVal → Bool
  | .undefined => false
  | .null => false
  | .boolean b => b
  | .num n => n ≠ 0
  | .str s => s ≠ ""
  | .fn => true
  | .arr _ => true
  | .obj _ => true

/-- Canonical array-index strings: the decimal digit strings without a
leading zero (plus "0" itself).  Only these address array elements in
JS; others are plain named properties. -/
def isCanonIndex (s : String) : Bool :=
  match s.toList with
  | [] => false
  | ['0'] => true
  | c :: cs => (c :: cs).all Char.isDigit && c ≠ '0'

/-- Value of a decimal digit string. -/
def digitsToNat (l : List Char) : Nat :=
  l.foldl (fun a c => a * 10 + (c.toNat - '0'.toNat)) 0

/-- Property read `v[k]` on a non-nullish receiver (total part of the
JS semantics).  Objects look keys up in their field list; arrays expose
`length`, the `push` method and their elements at canonical indices;
strings expose `length` and characters; every other read is
`undefined`. -/
def getV : JSVal → String → JSVal
  | .obj fs, k => (fs.lookup k).getD .undefined
  | .arr xs, k =>
    if k = "length" then .num xs.length
    else if k = "push" then .fn
    else if isCanonIndex k then xs.getD (digitsToNat k.toList) .undefined
    else .undefined
  | .str s, k =>
    if k = "length" then .num s.length
    else if isCanonIndex k then
      match s.toList.drop (digitsToNat k.toList) with
      | c :: _ => .str (String.mk [c])
      | [] => .undefined
    else .undefined
  | _, _ => .undefined

/-- Property read `v[k]` including the failure of reading a property of
`undefined` or `null` (a JS `TypeError`). -/
def getProp (v : JSVal) (k : String) : Except Unit JSVal :=
  match v with
  | .undefined => .error ()
  | .null => .error ()
  | w => .ok (getV w k)

/-- JavaScript `a || b` on values. -/
def jsOrV (a b : JSVal) : JSVal :=
  if truthy a then a else b

/-- The `||` chain `eco[k1] || eco[k2] || ...` used to pick the action
object. -/
def chain (eco : JSVal) : List String → JSVal
  | [] => .undefined
  | [k] => getV eco k
  | k :: ks => jsOrV (getV eco k) (chain eco ks)

/-- JavaScript numeric coercion restricted to the value shapes the
classifier can feed into its loop bound.  Integer-literal digit strings
are converted; other non-numeric strings are modelled as NaN (`none`),
which yields zero loop iterations exactly as in JS. -/
def jsToNumber : JSVal → Option Int
  | .undefined => none
  | .null => some 0
  | .boolean b => some (if b then 1 else 0)
  | .num n => some n
  | .str s =>
    if s = "" then some 0
    else if s.toList.all Char.isDigit then some (digitsToNat s.toList)
    else none
  | .fn => none
  | .arr _ => none
  | .obj _ => none

/-- API kinds of `schema_id.js` (`Api.GTAG` / `Api.DATA_LAYER`). -/
inductive Api : Type
  | gtag : Api
  | dataLayer : Api

namespace SchemaId

/-- Loop body of the `Api.GTAG` branch of `identifySchema` (lines
63-83 of `schema_id.js`): classify `items[i]` and fold it into the
running schema. -/
def itemStep (items : JSVal) (cur : Option String) (i : Nat) :
    Except Unit (Option String) := do
  let item ← getProp items (Nat.repr i)
  let u1 ← getProp item "item_id"
  let u2 ← getProp item "item_name"
  let u3 ← getProp item "promotion_id"
  let u4 ← getProp item "promotion_name"
  let u5 ← getProp item "creative_name"
  let unified : Option String :=
    if truthy u1 || truthy u2 || truthy u3 || truthy u4 || truthy u5 then
      some "ga4-gtag"
    else none
  let l1 ← getProp item "id"
  let l2 ← getProp item "name"
  let thisItemSchema : Option String :=
    if truthy l1 || truthy l2 then some "ua-gtag" else unified
  pure (if cur = none ∨ cur = thisItemSchema then thisItemSchema
        else some "gtag-unknown")

/-- Action-object key chain of the `Api.DATA_LAYER` branch, in source
order. -/
def actionKeys : List String :=
  ["detail", "click", "add", "remove", "purchase", "refund", "checkout",
   "checkoutStep", "promoView", "promoClick"]

/-- Shallow embedding of `identifySchema` from `schema_id.js`.  The
result is a `JSVal` because the function can fall off the item fold
with `currentSchema` still `undefined`; a thrown `TypeError`
(property read on `undefined`) is `Except.error`. -/
def identifySchema (api : Api) (paramsObject : JSVal) :
    Except Unit JSVal :=
  match api with
  | .gtag => do
    let m1 ← getProp paramsObject "items"
    let m2 ← getProp paramsObject "transaction_id"
    let m3 ← getProp paramsObject "value"
    let m4 ← getProp paramsObject "currency"
    if !(truthy m1 || truthy m2 || truthy m3 || truthy m4) then
      pure (JSVal.str "unknown")
    else
      let items := m1
      let len ← getProp items "length"
      let psh ← getProp items "push"
      if !truthy len || !truthy psh then
        pure (JSVal.str "gtag-unknown")
      else
        let n := ((jsToNumber len).getD 0).toNat
        let cur ← (List.range n).foldlM (itemStep items) none
        pure (match cur with
          | some sc => JSVal.str sc
          | none => JSVal.undefined)
  | .dataLayer => do
    let eco ← getProp paramsObject "ecommerce"
    if !truthy eco then
      pure (JSVal.str "unknown")
    else
      let i1 ← getProp eco "items"
      let i2 ← getProp eco "transaction_id"
      let i3 ← getProp eco "value"
      if truthy i1 || truthy i2 || truthy i3 then
        pure (JSVal.str "ga4-gtm")
      else
        let actionObject := chain eco actionKeys
        if truthy actionObject then do
          let f1 ← getProp actionObject "actionField"
          let f2 ← getProp actionObject "products"
          let f3 ← getProp actionObject "promotions"
          if truthy f1 || truthy f2 || truthy f3 then
            pure (JSVal.str "ua-gtm")
          else do
            let it ← getProp actionObject "items"
            if truthy it then
              pure (JSVal.str "ga4-gtm")
            else do
              let imp ← getProp eco "impressions"
              if truthy imp then pure (JSVal.str "ua-gtm")
              else pure (JSVal.str "unknown")
        else do
          let imp ← getProp eco "impressions"
          if truthy imp then pure (JSVal.str "ua-gtm")
          else pure (JSVal.str "unknown")

end SchemaId

/-- JavaScript `for (k in obj)` own-property order: canonical array
indices ascending first, then the remaining string keys in insertion
order. -/
def forInPairs {α : Type} (m : List (String × α)) : List (String × α) :=
  let idx := m.filter (fun kv => isCanonIndex kv.1)
  let sorted := idx.foldr
    (fun x acc =>
      let rec ins (x : String × α) : List (String × α) → List (String × α)
        | [] => [x]
        | y :: ys =>
          if digitsToNat x.1.toList < digitsToNat y.1.toList then x :: y :: ys
          else y :: ins x ys
      ins x acc) []
  sorted ++ m.filter (fun kv => !isCanonIndex kv.1)

/-- JavaScript array `length` of an indexed collection modelled as an
association list: one more than the largest canonical index assigned
(non-canonical keys are named properties and do not affect it). -/
def jsArrayLength {α : Type} (ps : List (String × α)) : Nat :=
  ps.foldl
    (fun m kv =>
      if isCanonIndex kv.1 then max m (digitsToNat kv.1.toList + 1) else m)
    0

namespace Recommend

/-- Event-parameter lines of `buildGa4GtagCommand` (lines 27-33 of
`schema_recommend.js`). -/
def paramLines (params : List (String × String)) : String :=
  (forInPairs params).foldl
    (fun acc kv => acc ++ "\n  \x27" ++ kv.1 ++ "\x27: \x27" ++ kv.2 ++ "\x27,")
    ""

/-- Field lines of one rendered product (lines 39-43 of
`schema_recommend.js`; the misplaced quote after the field name is the
source's). -/
def productFieldLines (product : Product) : String :=
  (forInPairs product).foldl
    (fun acc kv => acc ++ "      \x27" ++ kv.1 ++ ": \x27" ++ kv.2 ++ "\x27,\n")
    ""

/-- One iteration of the item loop: the object-literal braces are
emitted unconditionally; a hole at index `i` (`products[i]` is
`undefined`) renders an empty literal because `for..in` over
`undefined` iterates zero times. -/
def itemBlock (products : List (String × Product)) (i : Nat) : String :=
  "    \x7b\n" ++
    (match products.lookup (Nat.repr i) with
     | some product => productFieldLines product
     | none => "") ++
    "    \x7d,\n"

/-- Item loop of `buildGa4GtagCommand` (lines 36-45): `i` runs from 1
to `products.length - 1` inclusive. -/
def itemsConcat (products : List (String × Product)) : String :=
  (List.range' 1 (jsArrayLength products - 1)).foldl
    (fun acc i => acc ++ itemBlock products i) ""

/-- Shallow embedding of `buildGa4GtagCommand` from
`schema_recommend.js`.  An absent event renders as the string
"undefined" (JS template-literal coercion); an absent `params` field is
falsy and skipped, while an empty params object still renders no
lines. -/
def buildGa4GtagCommand (d : EventRecord) : String :=
  let eventParamsString :=
    match d.params with
    | some params => paramLines params
    | none => ""
  let items0 := itemsConcat d.products
  let itemsString :=
    if items0 ≠ "" then "\n  \x27items\x27: [\n" ++ items0 ++ "  ],\n"
    else "\n"
  "gtag(\x27event\x27, \x27" ++ d.event.getD "undefined" ++ "\x27, \x7b" ++
    eventParamsString ++ itemsString ++ "\x7d);"

end Recommend

namespace SchemaId

/-- First action object according to the specification's words: the
first present (truthy) action sub-object among the fixed ordered key
list. -/
def firstAction (eco : JSVal) : Option JSVal :=
  (actionKeys.map (getV eco)).find? truthy

/-- Classification chain for the structured-push kind exactly as the
specification states it: strongest unified markers first, then the
first present action sub-object, then the impressions fallback, then
`unknown`. -/
def specChainDL (fields : List (String × JSVal)) : String :=
  let eco := (fields.lookup "ecommerce").getD .undefined
  if !truthy eco then "unknown"
  else if truthy (getV eco "items") || truthy (getV eco "transaction_id") ||
      truthy (getV eco "value") then "ga4-gtm"
  else
    match firstAction eco with
    | some act =>
      if truthy (getV act "actionField") || truthy (getV act "products") ||
          truthy (getV act "promotions") then "ua-gtm"
      else if truthy (getV act "items") then "ga4-gtm"
      else if truthy (getV eco "impressions") then "ua-gtm"
      else "unknown"
    | none =>
      if truthy (getV eco "impressions") then "ua-gtm" else "unknown"

end SchemaId

/-- Number of positions of `s` at which `pat` occurs (used to count
rendered object literals). -/
def countSub (pat : List Char) : List Char → Nat
  | [] => 0
  | c :: cs => (if pat.isPrefixOf (c :: cs) then 1 else 0) + countSub pat cs

/-- Specification-side tilde escaping (section 4.1): a literal `~`
inside a value is emitted doubled, so that splitting on `~` produces an
empty part between the halves. -/
def escapeTilde (v : List Char) : List Char :=
  v.flatMap fun c => if c = '~' then ['~', '~'] else [c]

/-- Encoded chunk of one product field: two-character code followed by
the escaped value. -/
def chunkOf (f : List Char × List Char) : List Char :=
  f.1 ++ escapeTilde f.2

/-- Join chunks with the `~` separator. -/
def joinT : List (List Char) → List Char
  | [] => []
  | [c] => c
  | c :: cs => c ++ '~' :: joinT cs

/-- Specification-side encoder of a whole product payload. -/
def encodeFields (fs : List (List Char × List Char)) : List Char :=
  joinT (fs.map chunkOf)

/-- Rejoin split pieces, prefixing each with the separator. -/
def untilde (ws : List (List Char))  : List Char :=
  (ws.map fun w => '~' :: w).flatten

/-- Interleave the tail pieces of an escaped value with the empty parts
its doubled separators produce. -/
def pairsOf (ws : List (List Char)) : List (List Char) :=
  ws.flatMap fun w => [[], w]

/-- Fields addressed to one index, in scan order (specification side of
the merge property of the Protocol-B decoder). -/
def fieldsAt (k : String) (ms : List (List Char × List Char × List Char)) :
    List (List Char × List Char) :=
  ms.filterMap fun m => if m.1.asString = k then some m.2 else none

/-- Merge a list of decoded fields into an optional existing product:
no entry is created when nothing addresses the index, otherwise the
fields extend the existing entry in order, never replacing it. -/
def mergeEntry (tbl : String → Option String) (cur : Option Product)
    (fs : List (List Char × List Char)) : Option Product :=
  match cur with
  | some p =>
    some (fs.foldl
      (fun q cv => jsSet q ((tbl cv.1.asString).getD "undefined")
        cv.2.asString) p)
  | none =>
    if fs.isEmpty then none
    else
      some (fs.foldl
        (fun q cv => jsSet q ((tbl cv.1.asString).getD "undefined")
          cv.2.asString) [])

/-- Shared shape of the product and promotion fold steps of
`measurement_protocol.js` (they differ only in the code table). -/
def idxMergeStep (tbl : String → Option String)
    (ps : List (String × Product)) (m : List Char × List Char × List Char) :
    List (String × Product) :=
  let idx := m.1.asString
  let entry := (ps.lookup idx).getD []
  jsSet ps idx
    (jsSet entry ((tbl m.2.1.asString).getD "undefined") m.2.2.asString)

/-! Basic lemmas about the embedding's building blocks. -/

theorem lookup_jsSet {α : Type} (m : List (String × α)) (k k' : String)
    (v : α) :
    (jsSet m k v).lookup k' = if k' = k then some v else m.lookup k' := by
  induction m with
  | nil =>
    by_cases h : k' = k
    · have hb : (k' == k) = true := by simp [h]
      simp [jsSet, List.lookup, hb, h]
    · have hb : (k' == k) = false := by simp [h]
      simp [jsSet, List.lookup, hb, h]
  | cons kv t ih =>
    obtain ⟨k0, v0⟩ := kv
    by_cases h0 : k0 = k
    · subst h0
      by_cases h : k' = k0
      · have hb : (k' == k0) = true := by simp [h]
        simp [jsSet, List.lookup, hb, h]
      · have hb : (k' == k0) = false := by simp [h]
        simp [jsSet, List.lookup, hb, h]
    · by_cases h : k' = k0
      · subst h
        have hb : (k' == k') = true := by simp
        simp [jsSet, List.lookup, h0, hb, Ne.symm h0]
      · have hb : (k' == k0) = false := by simp [h]
        simp [jsSet, List.lookup, h0, hb, ih]

theorem isPrefixOf_append_self (p x : List Char) :
    p.isPrefixOf (p ++ x) = true := by
  induction p with
  | nil => simp [List.isPrefixOf]
  | cons c cs ih => simpa [List.isPrefixOf] using ih

theorem isPrefixOf_cons_ne {a c : Char} (pa : List Char) (h : c ≠ a)
    (s : List Char) : (a :: pa).isPrefixOf (c :: s) = false := by
  simp [List.isPrefixOf]
  intro hh
  exact absurd hh.symm h

theorem takeWhile_all {p : Char → Bool} (l : List Char)
    (h : ∀ c ∈ l, p c = true) : l.takeWhile p = l := by
  induction l with
  | nil => rfl
  | cons c cs ih =>
    have hc : p c = true := h c (by simp)
    have ih2 := ih fun x hx => h x (List.mem_cons_of_mem _ hx)
    simp [List.takeWhile, hc, ih2]

theorem takeWhile_append_stop {p : Char → Bool} (v : List Char) (x : Char)
    (b : List Char) (hv : ∀ c ∈ v, p c = true) (hx : p x = false) :
    (v ++ x :: b).takeWhile p = v := by
  induction v with
  | nil => simp [List.takeWhile, hx]
  | cons c cs ih =>
    have hc : p c = true := hv c (by simp)
    have ih2 := ih fun y hy => hv y (List.mem_cons_of_mem _ hy)
    simp [List.takeWhile, hc, ih2]

theorem takeWhile_append_all {p : Char → Bool} (a r : List Char)
    (ha : ∀ c ∈ a, p c = true) :
    (a ++ r).takeWhile p = a ++ r.takeWhile p := by
  induction a with
  | nil => rfl
  | cons c cs ih =>
    have hc : p c = true := ha c (by simp)
    have ih2 := ih fun y hy => ha y (List.mem_cons_of_mem _ hy)
    simp [List.takeWhile, hc, ih2]

theorem scanWith_nil {σ : Type}
    (tryM : List Char → Option (σ × List Char)) (fuel : Nat) :
    scanWith tryM fuel [] = [] := by
  cases fuel <;> rfl

theorem scanWith_cons_none {σ : Type}
    (tryM : List Char → Option (σ × List Char)) (fuel : Nat) (c : Char)
    (cs : List Char) (h : tryM (c :: cs) = none) :
    scanWith tryM (fuel + 1) (c :: cs) = scanWith tryM fuel cs := by
  simp [scanWith, h]

theorem scanWith_cons_some {σ : Type}
    (tryM : List Char → Option (σ × List Char)) (fuel : Nat) (c : Char)
    (cs rest : List Char) (r : σ) (h : tryM (c :: cs) = some (r, rest)) :
    scanWith tryM (fuel + 1) (c :: cs) = r :: scanWith tryM fuel rest := by
  simp [scanWith, h]

theorem scanWith_skip {σ : Type}
    (tryM : List Char → Option (σ × List Char)) :
    ∀ (a : List Char) (r : List Char) (fuel : Nat), a.length ≤ fuel →
      (∀ i, i < a.length → tryM (a.drop i ++ r) = none) →
      scanWith tryM fuel (a ++ r) = scanWith tryM (fuel - a.length) r := by
  intro a
  induction a with
  | nil => simp
  | cons c a' ih =>
    intro r fuel hf h
    cases fuel with
    | zero => simp at hf
    | succ f =>
      have h0 : tryM (c :: (a' ++ r)) = none := by
        have := h 0 (by simp)
        simpa using this
      have hlen : a'.length ≤ f := by
        simp at hf
        omega
      have hrec := ih r f hlen (fun i hi => by
        have := h (i + 1) (by simp; omega)
        simpa using this)
      have harith : f + 1 - (c :: a').length = f - a'.length := by
        simp
      calc scanWith tryM (f + 1) ((c :: a') ++ r)
          = scanWith tryM f (a' ++ r) :=
            scanWith_cons_none tryM f c (a' ++ r) h0
        _ = scanWith tryM (f - a'.length) r := hrec
        _ = scanWith tryM (f + 1 - (c :: a').length) r := by rw [harith]

theorem scanWith_empty {σ : Type}
    (tryM : List Char → Option (σ × List Char)) (s : List Char)
    (fuel : Nat) (hf : s.length ≤ fuel)
    (h : ∀ i, i < s.length → tryM (s.drop i) = none) :
    scanWith tryM fuel s = [] := by
  have := scanWith_skip tryM s [] fuel hf (fun i hi => by
    simpa using h i hi)
  simpa [scanWith_nil] using this

/-! Every matcher requires `&` as its first character, so scanners find
nothing in an ampersand-free string. -/

theorem tryPrA_amp {c : Char} (h : c ≠ '&') (cs : List Char) :
    Ga4.tryPrA (c :: cs) = none := by
  have hx : ("&pr".toList) = '&' :: 'p' :: 'r' :: [] := rfl
  simp [Ga4.tryPrA, hx, isPrefixOf_cons_ne, h]

theorem tryEp_amp {c : Char} (h : c ≠ '&') (cs : List Char) :
    Ga4.tryEp (c :: cs) = none := by
  have hx : ("&ep".toList) = '&' :: 'e' :: 'p' :: [] := rfl
  simp [Ga4.tryEp, hx, isPrefixOf_cons_ne, h]

theorem tryEn_amp {c : Char} (h : c ≠ '&') (cs : List Char) :
    Ga4.tryEn (c :: cs) = none := by
  have hx : ("&en=".toList) = '&' :: 'e' :: 'n' :: '=' :: [] := rfl
  simp [Ga4.tryEn, hx, isPrefixOf_cons_ne, h]

theorem tryUaPr_amp {c : Char} (h : c ≠ '&') (cs : List Char) :
    MP.tryUaPr (c :: cs) = none := by
  have hx : ("&pr".toList) = '&' :: 'p' :: 'r' :: [] := rfl
  simp [MP.tryUaPr, hx, isPrefixOf_cons_ne, h]

theorem tryIlNm_amp {c : Char} (h : c ≠ '&') (cs : List Char) :
    MP.tryIlNm (c :: cs) = none := by
  have hx : ("&il".toList) = '&' :: 'i' :: 'l' :: [] := rfl
  simp [MP.tryIlNm, hx, isPrefixOf_cons_ne, h]

theorem tryIlPi_amp {c : Char} (h : c ≠ '&') (cs : List Char) :
    MP.tryIlPi (c :: cs) = none := by
  have hx : ("&il".toList) = '&' :: 'i' :: 'l' :: [] := rfl
  simp [MP.tryIlPi, hx, isPrefixOf_cons_ne, h]

theorem tryPromo_amp {c : Char} (h : c ≠ '&') (cs : List Char) :
    MP.tryPromo (c :: cs) = none := by
  have hx : ("&promo".toList) = '&' :: 'p' :: 'r' :: 'o' :: 'm' :: 'o' :: [] :=
    rfl
  simp [MP.tryPromo, hx, isPrefixOf_cons_ne, h]

theorem tryUaParams_amp {c : Char} (h : c ≠ '&') (cs : List Char) :
    MP.tryUaParams (c :: cs) = none := by
  unfold MP.tryUaParams
  split
  · rename_i r heq
    injection heq with h1 _
    exact absurd h1 h
  · rfl

theorem runScan_nil_of_no_amp {σ : Type}
    (tryM : List Char → Option (σ × List Char))
    (hTry : ∀ (c : Char) (cs : List Char), c ≠ '&' → tryM (c :: cs) = none)
    (s : List Char) (hs : ∀ c ∈ s, c ≠ '&') : runScan tryM s = [] := by
  apply scanWith_empty _ _ _ le_rfl
  intro i hi
  rw [List.drop_eq_getElem_cons hi]
  exact hTry _ _ (hs _ (List.getElem_mem hi))

theorem scanWith_skip_amp {σ : Type}
    (tryM : List Char → Option (σ × List Char))
    (hTry : ∀ (c : Char) (cs : List Char), c ≠ '&' → tryM (c :: cs) = none)
    (a r : List Char) (fuel : Nat) (hs : ∀ c ∈ a, c ≠ '&')
    (hf : a.length ≤ fuel) :
    scanWith tryM fuel (a ++ r) = scanWith tryM (fuel - a.length) r := by
  apply scanWith_skip tryM a r fuel hf
  intro i hi
  rw [List.drop_eq_getElem_cons hi, List.cons_append]
  exact hTry _ _ (hs _ (List.getElem_mem hi))

theorem containsSub_of_prefix_drop (pat : List Char) :
    ∀ (s : List Char) (i : Nat), pat.isPrefixOf (s.drop i) = true →
      containsSub pat s = true := by
  intro s
  induction s with
  | nil =>
    intro i h
    simp at h
    cases h3 : pat with
    | nil => rfl
    | cons x xs =>
      rw [h3] at h
      simp [List.isPrefixOf] at h
  | cons c cs ih =>
    intro i h
    cases i with
    | zero =>
      rw [List.drop_zero] at h
      simp [containsSub, h]
    | succ j =>
      rw [List.drop_succ_cons] at h
      have := ih j h
      simp [containsSub, this]

/-- C8: both decoders are total over arbitrary strings (the embedding
is a plain function; no step of either `parse` can throw, unlike the
classifier), and a string in which none of the recognized parameter
patterns matches decodes to the degenerate record: empty products, no
event, and only the always-initialised empty containers.  The last
conjunct shows a concrete pattern-free family: any ampersand-free
string has no matches at all. -/
theorem C8_decode_pattern_free (s : String) :
    (runScan Ga4.tryPrA s.toList = [] → runScan Ga4.tryEp s.toList = [] →
      runScan Ga4.tryEn s.toList = [] →
      Ga4.parse s = { params := some [] }) ∧
    (runScan MP.tryUaPr s.toList = [] → runScan MP.tryIlNm s.toList = [] →
      runScan MP.tryIlPi s.toList = [] → runScan MP.tryPromo s.toList = [] →
      runScan MP.tryUaParams s.toList = [] →
      MP.parse s =
        { impressions := some [], promos := some [], params := some [] }) ∧
    ((∀ c ∈ s.toList, c ≠ '&') →
      runScan Ga4.tryPrA s.toList = [] ∧ runScan Ga4.tryEp s.toList = [] ∧
      runScan Ga4.tryEn s.toList = [] ∧ runScan MP.tryUaPr s.toList = [] ∧
      runScan MP.tryIlNm s.toList = [] ∧ runScan MP.tryIlPi s.toList = [] ∧
      runScan MP.tryPromo s.toList = [] ∧
      runScan MP.tryUaParams s.toList = []) := by
  refine ⟨?_, ?_, ?_⟩
  · intro h1 h2 h3
    simp only [String.toList] at h1 h2 h3
    simp [Ga4.parse, h1, h2, h3]
  · intro h1 h2 h3 h4 h5
    simp only [String.toList] at h1 h2 h3 h4 h5
    simp [MP.parse, h1, h2, h3, h4, h5]
  · intro hs
    exact ⟨runScan_nil_of_no_amp _ (fun c cs h => tryPrA_amp h cs) _ hs,
      runScan_nil_of_no_amp _ (fun c cs h => tryEp_amp h cs) _ hs,
      runScan_nil_of_no_amp _ (fun c cs h => tryEn_amp h cs) _ hs,
      runScan_nil_of_no_amp _ (fun c cs h => tryUaPr_amp h cs) _ hs,
      runScan_nil_of_no_amp _ (fun c cs h => tryIlNm_amp h cs) _ hs,
      runScan_nil_of_no_amp _ (fun c cs h => tryIlPi_amp h cs) _ hs,
      runScan_nil_of_no_amp _ (fun c cs h => tryPromo_amp h cs) _ hs,
      runScan_nil_of_no_amp _ (fun c cs h => tryUaParams_amp h cs) _ hs⟩

/-- Witness for C8 on the concrete pattern-free string "hello world". -/
theorem C8_decode_pattern_free_witness :
    Ga4.parse "hello world" = { params := some [] } ∧
    MP.parse "hello world" =
      { impressions := some [], promos := some [], params := some [] } := by
  have h := C8_decode_pattern_free "hello world"
  have hs : ∀ c ∈ ("hello world").toList, c ≠ '&' := by decide
  obtain ⟨e1, e2, e3, e4, e5, e6, e7, e8⟩ := h.2.2 hs
  exact ⟨h.1 e1 e2 e3, h.2.1 e4 e5 e6 e7 e8⟩

theorem tryEn_prefix_of_ne_none (s' : List Char) (h : Ga4.tryEn s' ≠ none) :
    ("&en=".toList).isPrefixOf s' = true := by
  by_cases hp : ("&en=".toList).isPrefixOf s' = true
  · exact hp
  · exfalso
    apply h
    unfold Ga4.tryEn
    rw [if_neg hp]

theorem tryEn_match (v b : List Char) (hv : ∀ c ∈ v, c ≠ '&') :
    Ga4.tryEn ("&en=".toList ++ (v ++ '&' :: b)) = some (v, '&' :: b) := by
  have hd : ("&en=".toList ++ (v ++ '&' :: b)).drop 4 = v ++ '&' :: b := by
    have := List.drop_left ("&en=".toList) (v ++ '&' :: b)
    simpa using this
  have htk : (v ++ '&' :: b).takeWhile (fun c => decide (c ≠ '&')) = v :=
    takeWhile_append_stop v '&' b
      (fun c hc => decide_eq_true (hv c hc)) (by decide)
  have hdr : (v ++ '&' :: b).drop v.length = '&' :: b := List.drop_left v _
  simp only [Ga4.tryEn, isPrefixOf_append_self, if_true, hd, htk, hdr]

/-- C9: the decoded `event` is always the value of the first `&en=`
match (later matches are ignored); with an ampersand-free stretch
before the first `&en=` and an ampersand-free value, the event is
exactly that first value whatever follows; and a URL with no `&en=`
occurrence leaves the event unset. -/
theorem C9_event_first_match :
    (∀ s : String,
      (Ga4.parse s).event =
        (runScan Ga4.tryEn s.toList).head?.map List.asString) ∧
    (∀ a v b : List Char, (∀ c ∈ a, c ≠ '&') → (∀ c ∈ v, c ≠ '&') →
      (Ga4.parse (String.mk (a ++ "&en=".toList ++ (v ++ '&' :: b)))).event =
        some v.asString) ∧
    (∀ s : String, containsSub ("&en=".toList) s.toList = false →
      (Ga4.parse s).event = none) := by
  refine ⟨fun s => rfl, ?_, ?_⟩
  · intro a v b ha hv
    have hfirst : (Ga4.parse
        (String.mk (a ++ "&en=".toList ++ (v ++ '&' :: b)))).event =
        (runScan Ga4.tryEn
          (a ++ "&en=".toList ++ (v ++ '&' :: b))).head?.map List.asString :=
      rfl
    rw [hfirst]
    have hassoc : a ++ "&en=".toList ++ (v ++ '&' :: b) =
        a ++ ("&en=".toList ++ (v ++ '&' :: b)) := by
      rw [List.append_assoc]
    rw [hassoc]
    unfold runScan
    have hskip := scanWith_skip_amp Ga4.tryEn
      (fun c cs h => tryEn_amp h cs) a ("&en=".toList ++ (v ++ '&' :: b))
      (a ++ ("&en=".toList ++ (v ++ '&' :: b))).length ha
      (by simp)
    rw [hskip]
    have hlen : (a ++ ("&en=".toList ++ (v ++ '&' :: b))).length - a.length =
        ("&en=".toList ++ (v ++ '&' :: b)).length := by
      simp
    rw [hlen]
    have hcons : "&en=".toList ++ (v ++ '&' :: b) =
        '&' :: ('e' :: 'n' :: '=' :: (v ++ '&' :: b)) := rfl
    have hlen2 : ("&en=".toList ++ (v ++ '&' :: b)).length =
        (v ++ '&' :: b).length + 3 + 1 := by
      simp
    rw [hlen2, hcons]
    rw [scanWith_cons_some Ga4.tryEn ((v ++ '&' :: b).length + 3) '&'
      ('e' :: 'n' :: '=' :: (v ++ '&' :: b)) ('&' :: b) v
      (tryEn_match v b hv)]
    rfl
  · intro s hsub
    have hempty : runScan Ga4.tryEn s.toList = [] := by
      apply scanWith_empty _ _ _ le_rfl
      intro i hi
      by_cases ht : Ga4.tryEn (s.toList.drop i) = none
      · exact ht
      · exfalso
        have hcontra := containsSub_of_prefix_drop _ s.toList i
          (tryEn_prefix_of_ne_none _ ht)
        rw [hcontra] at hsub
        exact Bool.noConfusion hsub
    have : (Ga4.parse s).event =
        (runScan Ga4.tryEn s.toList).head?.map List.asString := rfl
    rw [this, hempty]
    rfl

/-- Witness for C9: the first of two `&en=` parameters wins, and a URL
without `&en=` decodes with no event. -/
theorem C9_event_first_match_witness :
    (Ga4.parse "x&en=first&en=second").event = some "first" ∧
    (Ga4.parse "x&pr1=id7").event = none := by
  have h2 := C9_event_first_match.2.1 ("x".toList) ("first".toList)
    ("en=second".toList) (by decide) (by decide)
  refine ⟨?_, C9_event_first_match.2.2 "x&pr1=id7" (by decide)⟩
  exact h2

theorem scanWith_no_amp {σ : Type}
    (tryM : List Char → Option (σ × List Char))
    (hTry : ∀ (c : Char) (cs : List Char), c ≠ '&' → tryM (c :: cs) = none)
    (fuel : Nat) (s : List Char) (hf : s.length ≤ fuel)
    (hs : ∀ c ∈ s, c ≠ '&') : scanWith tryM fuel s = [] := by
  apply scanWith_empty _ _ _ hf
  intro i hi
  rw [List.drop_eq_getElem_cons hi]
  exact hTry _ _ (hs _ (List.getElem_mem hi))

theorem splitCh_no_sep {sep : Char} (l : List Char)
    (h : ∀ c ∈ l, c ≠ sep) : splitCh sep l = [l] := by
  induction l with
  | nil => rfl
  | cons c cs ih =>
    have hih := ih fun x hx => h x (List.mem_cons_of_mem _ hx)
    have hc : c ≠ sep := h c (by simp)
    simp [splitCh, hih, hc]

/-- C1 (code bug): the classifier is not total.  On the direct-call
kind with `transaction_id` present but `items` absent it dereferences
`undefined` (`items.length`) and throws, and with items that match no
classification rule it returns the JS value `undefined`, which is none
of the six labels. -/
theorem C1_classifier_not_total :
    SchemaId.identifySchema .gtag (.obj [("transaction_id", .str "x")]) =
      .error () ∧
    SchemaId.identifySchema .gtag
        (.obj [("items", .arr [.obj [("foo", .str "bar")]])]) =
      .ok .undefined := by
  exact ⟨rfl, rfl⟩

/-- C3 (code bug): a non-empty `items` array none of whose entries
matches a rule makes the fold return `undefined`, not the
`gtag-unknown` label the specification states. -/
theorem C3_unclassified_items_yield_undefined :
    SchemaId.identifySchema .gtag
        (.obj [("items", .arr [.obj [("other", .str "y")], .obj []])]) =
      .ok .undefined ∧
    (JSVal.undefined ≠ JSVal.str "gtag-unknown") := by
  exact ⟨rfl, fun h => nomatch h⟩

/-- C2 (counterexample): an unknown two-character field code is not
dropped.  Both decoders store the value under the literal key
"undefined" (the stringified failed table lookup), so the resulting
product is not empty. -/
theorem C2_unknown_code_counterexample :
    Ga4.GA4_PRODUCT_FIELDS "zz" = none ∧
    (Ga4.parse "&pr1=zz42").products = [("1", [("undefined", "42")])] ∧
    (Ga4.parse "&pr1=zz42").products.lookup "1" ≠ some [] ∧
    MP.UA_PRODUCT_FIELDS "zz" = none ∧
    (MP.parse "&pr1zz=42").products = [("1", [("undefined", "42")])] ∧
    (MP.parse "&pr1zz=42").products.lookup "1" ≠ some [] := by
  refine ⟨rfl, by decide, by decide, rfl, by decide, by decide⟩

/-- C2 (amended): the unknown-code value is not dropped; for every
two-character code missing from the table, the decoded product stores
the value under the literal key "undefined" and no error is raised. -/
theorem C2_amended_unknown_code_kept (code v : List Char)
    (hlen : code.length = 2)
    (hmiss : Ga4.GA4_PRODUCT_FIELDS code.asString = none)
    (hampc : ∀ c ∈ code, c ≠ '&') (htlc : ∀ c ∈ code, c ≠ '~')
    (hampv : ∀ c ∈ v, c ≠ '&') (htlv : ∀ c ∈ v, c ≠ '~') :
    Ga4.parse (String.mk ("&pr1=".toList ++ (code ++ v))) =
      { products := [("1", [("undefined", v.asString)])]
        params := some [] } := by
  have hampx : ∀ c ∈ code ++ v, c ≠ '&' := by
    intro c hc
    rcases List.mem_append.mp hc with h | h
    · exact hampc c h
    · exact hampv c h
  have htlx : ∀ c ∈ code ++ v, c ≠ '~' := by
    intro c hc
    rcases List.mem_append.mp hc with h | h
    · exact htlc c h
    · exact htlv c h
  have htk : (code ++ v).takeWhile (fun c => decide (c ≠ '&')) = code ++ v :=
    takeWhile_all _ (fun c hc => decide_eq_true (hampx c hc))
  have htry : Ga4.tryPrA ("&pr1=".toList ++ (code ++ v)) =
      some ((['1'], code ++ v), []) := by
    have h0 : Ga4.tryPrA ("&pr1=".toList ++ (code ++ v)) =
        some ((['1'], (code ++ v).takeWhile (fun c => decide (c ≠ '&'))),
          ((code ++ v).drop
            ((code ++ v).takeWhile (fun c => decide (c ≠ '&'))).length)) := by
      rfl
    rw [h0, htk, List.drop_length]
  have htail : ∀ c ∈ ('p' :: 'r' :: '1' :: '=' :: (code ++ v)), c ≠ '&' := by
    intro c hc
    simp only [List.mem_cons] at hc
    rcases hc with rfl | rfl | rfl | rfl | hc
    · decide
    · decide
    · decide
    · decide
    · exact hampx c hc
  have hlenL : ("&pr1=".toList ++ (code ++ v)).length =
      ((code ++ v).length + 4) + 1 := by
    simp
  have hconsL : "&pr1=".toList ++ (code ++ v) =
      '&' :: ('p' :: 'r' :: '1' :: '=' :: (code ++ v)) := rfl
  have htaillen : ('p' :: 'r' :: '1' :: '=' :: (code ++ v)).length =
      (code ++ v).length + 4 := by
    simp
  have hscanA : runScan Ga4.tryPrA ("&pr1=".toList ++ (code ++ v)) =
      [(['1'], code ++ v)] := by
    unfold runScan
    rw [hlenL, hconsL]
    rw [scanWith_cons_some Ga4.tryPrA _ _ _ _ _ (hconsL ▸ htry)]
    rw [scanWith_nil]
  have hscanEp : runScan Ga4.tryEp ("&pr1=".toList ++ (code ++ v)) = [] := by
    unfold runScan
    rw [hlenL, hconsL]
    rw [scanWith_cons_none Ga4.tryEp _ _ _
      (show Ga4.tryEp ('&' :: ('p' :: 'r' :: '1' :: '=' :: (code ++ v))) =
        none from rfl)]
    exact scanWith_no_amp _ (fun c cs h => tryEp_amp h cs) _ _
      (by rw [htaillen]) htail
  have hscanEn : runScan Ga4.tryEn ("&pr1=".toList ++ (code ++ v)) = [] := by
    unfold runScan
    rw [hlenL, hconsL]
    rw [scanWith_cons_none Ga4.tryEn _ _ _
      (show Ga4.tryEn ('&' :: ('p' :: 'r' :: '1' :: '=' :: (code ++ v))) =
        none from rfl)]
    exact scanWith_no_amp _ (fun c cs h => tryEn_amp h cs) _ _
      (by rw [htaillen]) htail
  have hparse : Ga4.parse (String.mk ("&pr1=".toList ++ (code ++ v))) =
      { event := (runScan Ga4.tryEn
          ("&pr1=".toList ++ (code ++ v))).head?.map List.asString
        products := (runScan Ga4.tryPrA
          ("&pr1=".toList ++ (code ++ v))).foldl Ga4.productStep []
        impressions := none
        promos := none
        params := some ((runScan Ga4.tryEp
          ("&pr1=".toList ++ (code ++ v))).foldl Ga4.paramStep []) } := rfl
  rw [hparse, hscanA, hscanEp, hscanEn]
  have hsplit : splitCh '~' (code ++ v) = [code ++ v] :=
    splitCh_no_sep _ htlx
  have hdecode : Ga4.decodePayload (code ++ v) =
      [("undefined", v.asString)] := by
    unfold Ga4.decodePayload
    rw [hsplit]
    have hgo : Ga4.unescParts [code ++ v] = [code ++ v] := rfl
    rw [hgo]
    have hstep : Ga4.partStep [] (code ++ v) =
        [(Ga4.fieldKey ((code ++ v).take 2).asString,
          ((code ++ v).drop 2).asString)] := rfl
    have htake : (code ++ v).take 2 = code := by
      rw [← hlen]
      exact List.take_left code v
    have hdrop : (code ++ v).drop 2 = v := by
      rw [← hlen]
      exact List.drop_left code v
    have hkey : Ga4.fieldKey code.asString = "undefined" := by
      unfold Ga4.fieldKey
      rw [hmiss]
      rfl
    simp only [List.foldl, hstep, htake, hdrop, hkey]
  simp only [List.foldl, Ga4.productStep, hdecode]
  rfl

/-- Witness for C2's amended statement: the unknown code "qq". -/
theorem C2_amended_unknown_code_kept_witness :
    Ga4.parse (String.mk ("&pr1=".toList ++ ("qq".toList ++ "7".toList))) =
      { products := [("1", [("undefined", "7")])]
        params := some [] } := by
  exact C2_amended_unknown_code_kept ("qq".toList) ("7".toList) (by decide)
    (by decide) (by decide) (by decide) (by decide) (by decide)

theorem prStep_eq : MP.prStep = idxMergeStep MP.UA_PRODUCT_FIELDS := rfl

theorem promoStep_eq : MP.promoStep = idxMergeStep MP.UA_PROMOTION_FIELDS :=
  rfl

theorem foldl_idxMergeStep_lookup (tbl : String → Option String) :
    ∀ (ms : List (List Char × List Char × List Char))
      (ps : List (String × Product)) (k : String),
      (ms.foldl (idxMergeStep tbl) ps).lookup k =
        mergeEntry tbl (ps.lookup k) (fieldsAt k ms) := by
  intro ms
  induction ms with
  | nil =>
    intro ps k
    cases h : ps.lookup k <;> simp [mergeEntry, fieldsAt, h]
  | cons m ms' ih =>
    intro ps k
    have hstep : (m :: ms').foldl (idxMergeStep tbl) ps =
        ms'.foldl (idxMergeStep tbl) (idxMergeStep tbl ps m) := rfl
    rw [hstep, ih]
    by_cases hk : k = m.1.asString
    · have hlk : (idxMergeStep tbl ps m).lookup k =
          some (jsSet ((ps.lookup k).getD [])
            ((tbl m.2.1.asString).getD "undefined") m.2.2.asString) := by
        unfold idxMergeStep
        rw [lookup_jsSet]
        rw [if_pos hk, ← hk]
      rw [hlk]
      have hfields : fieldsAt k (m :: ms') = m.2 :: fieldsAt k ms' := by
        simp [fieldsAt, hk]
      rw [hfields]
      cases hcur : ps.lookup k <;> simp [mergeEntry]
    · have hlk : (idxMergeStep tbl ps m).lookup k = ps.lookup k := by
        unfold idxMergeStep
        rw [lookup_jsSet, if_neg hk]
      have hfields : fieldsAt k (m :: ms') = fieldsAt k ms' := by
        have hne : m.1.asString ≠ k := fun hc => hk hc.symm
        simp [fieldsAt, hne]
      rw [hlk, hfields]

/-- C7: in the Protocol-B decoder, all fields addressing one index are
merged, in scan order, into the single entry at that index: the entry
at `k` is exactly the in-order fold of the fields addressed to `k`
(never a wholesale replacement), for products and promotions alike; an
impression-field step extends the existing entry (keeping its name and
its other impressions) and touches no other index; and the
specification's worked example decodes exactly as stated. -/
theorem C7_fields_merge_by_index :
    (∀ (url : String) (k : String),
      (MP.parse url).products.lookup k =
        mergeEntry MP.UA_PRODUCT_FIELDS none
          (fieldsAt k (runScan MP.tryUaPr url.toList))) ∧
    (∀ (url : String) (k : String),
      ((MP.parse url).promos.getD []).lookup k =
        mergeEntry MP.UA_PROMOTION_FIELDS none
          (fieldsAt k (runScan MP.tryPromo url.toList))) ∧
    (∀ (is : List (String × ImpList))
        (m : List Char × List Char × List Char × List Char),
      (MP.ilPiStep is m).lookup m.1.asString =
        (let il := (is.lookup m.1.asString).getD {}
         some { name := il.name
                impressions :=
                  jsSet il.impressions m.2.1.asString
                    (jsSet ((il.impressions.lookup m.2.1.asString).getD [])
                      ((MP.UA_IMPRESSION_FIELDS m.2.2.1.asString).getD
                        "undefined")
                      m.2.2.2.asString) }) ∧
      (∀ k, k ≠ m.1.asString → (MP.ilPiStep is m).lookup k = is.lookup k)) ∧
    MP.parse "https://x.com/collect?v=1&pr1id=SKU1&pr1nm=Widget&il2nm=Homepage&il2pi0id=SKU2&promo3id=P9&pa=purchase&tr=19.99" =
      { products := [("1", [("item_id", "SKU1"), ("item_name", "Widget")])]
        impressions := some [("2",
          { name := some "Homepage"
            impressions := [("0", [("item_id", "SKU2")])] })]
        promos := some [("3", [("item_id", "P9")])]
        params := some [("product_action", "purchase"),
                        ("value", "19.99")] } := by
  refine ⟨?_, ?_, ?_, by decide⟩
  · intro url k
    have h0 : (MP.parse url).products =
        (runScan MP.tryUaPr url.toList).foldl MP.prStep [] := rfl
    rw [h0, prStep_eq]
    exact foldl_idxMergeStep_lookup _ _ [] k
  · intro url k
    have h0 : (MP.parse url).promos.getD [] =
        (runScan MP.tryPromo url.toList).foldl MP.promoStep [] := rfl
    rw [h0, promoStep_eq]
    exact foldl_idxMergeStep_lookup _ _ [] k
  · intro is m
    constructor
    · unfold MP.ilPiStep
      rw [lookup_jsSet, if_pos rfl]
    · intro k hk
      unfold MP.ilPiStep
      rw [lookup_jsSet, if_neg hk]

/-- Witness for C7 at concrete inputs (the merge equation for a URL
with two fields on product 1, and index-independence of an
impression-field step). -/
theorem C7_fields_merge_by_index_witness :
    (MP.parse "x&pr1id=A&pr1nm=B").products.lookup "1" =
      mergeEntry MP.UA_PRODUCT_FIELDS none
        (fieldsAt "1" (runScan MP.tryUaPr ("x&pr1id=A&pr1nm=B").toList)) ∧
    (MP.ilPiStep [] (['2'], ['0'], ['i', 'd'], ['S'])).lookup "9" =
      ([] : List (String × ImpList)).lookup "9" := by
  exact ⟨C7_fields_merge_by_index.1 "x&pr1id=A&pr1nm=B" "1",
    (C7_fields_merge_by_index.2.2.1 [] (['2'], ['0'], ['i', 'd'], ['S'])).2
      "9" (by decide)⟩

/-- C4 (counterexample): with a single product at index 3, the
renderer emits three object literals (two of them empty, for the
absent indices 1 and 2), not one literal per populated index. -/
theorem C4_render_counterexample :
    Recommend.buildGa4GtagCommand
        { event := some "purchase"
          params := some []
          products := [("3", [("item_id", "X")])] } =
      "gtag(\x27event\x27, \x27purchase\x27, \x7b\n  \x27items\x27: [\n    \x7b\n    \x7d,\n    \x7b\n    \x7d,\n    \x7b\n      \x27item_id: \x27X\x27,\n    \x7d,\n  ],\n\x7d);" ∧
    countSub ("    \x7b\n".toList)
      (Recommend.buildGa4GtagCommand
        { event := some "purchase"
          params := some []
          products := [("3", [("item_id", "X")])] }).toList = 3 := by
  exact ⟨by decide, by decide⟩

theorem foldl_append_strings (ls : List String) :
    ∀ a : String, ls.foldl (fun r s => r ++ s) a =
      a ++ ls.foldl (fun r s => r ++ s) "" := by
  induction ls with
  | nil =>
    intro a
    simp
  | cons x xs ih =>
    intro a
    have h1 : (x :: xs).foldl (fun r s => r ++ s) a =
        xs.foldl (fun r s => r ++ s) (a ++ x) := rfl
    have h2 : (x :: xs).foldl (fun r s => r ++ s) "" =
        xs.foldl (fun r s => r ++ s) ("" ++ x) := rfl
    rw [h1, h2, ih (a ++ x), ih ("" ++ x), ← String.append_assoc]
    have h3 : ("" : String) ++ x = x := by simp
    rw [h3]

theorem foldl_append_eq_join (f : Nat → String) :
    ∀ (l : List Nat) (acc : String),
      l.foldl (fun a i => a ++ f i) acc = acc ++ String.join (l.map f) := by
  intro l
  induction l with
  | nil =>
    intro acc
    simp [String.join]
  | cons i l' ih =>
    intro acc
    have h1 : (i :: l').foldl (fun a j => a ++ f j) acc =
        l'.foldl (fun a j => a ++ f j) (acc ++ f i) := rfl
    rw [h1, ih]
    have h2 : String.join ((i :: l').map f) = f i ++ String.join (l'.map f) := by
      have h3 : String.join ((i :: l').map f) =
          (l'.map f).foldl (fun r s => r ++ s) ("" ++ f i) := rfl
      rw [h3, foldl_append_strings]
      have h4 : ("" : String) ++ f i = f i := by simp
      rw [h4]
      rfl
    rw [h2, String.append_assoc]

/-- C4 (amended): the item loop renders one object-literal block for
every index from 1 to `products.length - 1` in ascending order —
including empty blocks for absent indices — and never index 0; on the
claim's own example (single product at index 1) exactly one block is
rendered, as stated. -/
theorem C4_render_items_from_one :
    (∀ products : List (String × Product),
      Recommend.itemsConcat products =
        String.join ((List.range' 1 (jsArrayLength products - 1)).map
          (Recommend.itemBlock products))) ∧
    Recommend.buildGa4GtagCommand
        { event := some "purchase"
          params := some [("value", "9.99")]
          products := [("1", [("item_id", "X")])] } =
      "gtag(\x27event\x27, \x27purchase\x27, \x7b\n  \x27value\x27: \x279.99\x27,\n  \x27items\x27: [\n    \x7b\n      \x27item_id: \x27X\x27,\n    \x7d,\n  ],\n\x7d);" ∧
    countSub ("    \x7b\n".toList)
      (Recommend.buildGa4GtagCommand
        { event := some "purchase"
          params := some [("value", "9.99")]
          products := [("1", [("item_id", "X")])] }).toList = 1 := by
  refine ⟨?_, by decide, by decide⟩
  intro products
  unfold Recommend.itemsConcat
  rw [foldl_append_eq_join]
  rfl

theorem splitCh_ne_nil (sep : Char) (l : List Char) :
    splitCh sep l ≠ [] := by
  cases l with
  | nil => simp [splitCh]
  | cons c cs =>
    unfold splitCh
    cases h : splitCh sep cs with
    | nil => simp
    | cons x xs =>
      by_cases hc : c = sep <;> simp [hc]

theorem splitCh_cons_form (sep : Char) (l : List Char) :
    splitCh sep l = (splitCh sep l).headI :: (splitCh sep l).tail := by
  cases h : splitCh sep l with
  | nil => exact absurd h (splitCh_ne_nil sep l)
  | cons x xs => rfl

theorem splitCh_sep_cons (sep : Char) (l : List Char) :
    splitCh sep (sep :: l) = [] :: splitCh sep l := by
  cases h : splitCh sep l with
  | nil => exact absurd h (splitCh_ne_nil sep l)
  | cons x xs =>
    conv_lhs => rw [splitCh]
    rw [h]
    simp

theorem splitCh_ne_cons {sep c : Char} (h : c ≠ sep) (l : List Char) :
    splitCh sep (c :: l) =
      (c :: (splitCh sep l).headI) :: (splitCh sep l).tail := by
  cases hs : splitCh sep l with
  | nil => exact absurd hs (splitCh_ne_nil sep l)
  | cons x xs =>
    conv_lhs => rw [splitCh]
    rw [hs]
    simp [h]

theorem splitCh_sepfree_append {sep : Char} (a w : List Char)
    (ha : ∀ c ∈ a, c ≠ sep) :
    splitCh sep (a ++ w) =
      (a ++ (splitCh sep w).headI) :: (splitCh sep w).tail := by
  induction a with
  | nil =>
    simp
    exact splitCh_cons_form sep w
  | cons c a' ih =>
    have hc : c ≠ sep := ha c (by simp)
    have ih2 := ih fun x hx => ha x (List.mem_cons_of_mem _ hx)
    rw [List.cons_append, splitCh_ne_cons hc, ih2]
    simp

theorem splitCh_append_sep (sep : Char) :
    ∀ (x y : List Char),
      splitCh sep (x ++ sep :: y) = splitCh sep x ++ splitCh sep y := by
  intro x y
  induction x with
  | nil =>
    rw [List.nil_append, splitCh_sep_cons]
    rfl
  | cons c x' ih =>
    by_cases hc : c = sep
    · subst hc
      rw [List.cons_append, splitCh_sep_cons, ih, splitCh_sep_cons]
      rfl
    · rw [List.cons_append, splitCh_ne_cons hc, ih, splitCh_ne_cons hc]
      have hne := splitCh_ne_nil sep x'
      cases hs : splitCh sep x' with
      | nil => exact absurd hs hne
      | cons h t => simp

theorem split_escape (v : List Char) :
    splitCh '~' (escapeTilde v) =
      (splitCh '~' v).headI :: pairsOf (splitCh '~' v).tail := by
  induction v with
  | nil => rfl
  | cons c v' ih =>
    by_cases hc : c = '~'
    · subst hc
      have hesc : escapeTilde ('~' :: v') = '~' :: '~' :: escapeTilde v' := rfl
      rw [hesc, splitCh_sep_cons, splitCh_sep_cons, ih, splitCh_sep_cons]
      cases hs : splitCh '~' v' with
      | nil => exact absurd hs (splitCh_ne_nil _ _)
      | cons x xs => simp [pairsOf]
    · have hesc : escapeTilde (c :: v') = c :: escapeTilde v' := by
        simp [escapeTilde, hc]
      rw [hesc, splitCh_ne_cons hc, ih, splitCh_ne_cons hc]
      simp

theorem unescGo_pairs :
    ∀ (ws : List (List Char)) (acc : List Char) (rest : List (List Char)),
      Ga4.unescGo acc (pairsOf ws ++ rest) =
        Ga4.unescGo (acc ++ untilde ws) rest := by
  intro ws
  induction ws with
  | nil =>
    intro acc rest
    simp [pairsOf, untilde]
  | cons w ws' ih =>
    intro acc rest
    have hp : pairsOf (w :: ws') = [] :: w :: pairsOf ws' := rfl
    rw [hp]
    have hgo : Ga4.unescGo acc (([] : List Char) :: w ::
        (pairsOf ws' ++ rest)) = Ga4.unescGo (acc ++ '~' :: w)
          (pairsOf ws' ++ rest) := rfl
    rw [List.cons_append, List.cons_append, hgo, ih]
    have hu : untilde (w :: ws') = ('~' :: w) ++ untilde ws' := rfl
    rw [hu, ← List.append_assoc]

theorem untilde_rejoin (v : List Char) :
    (splitCh '~' v).headI ++ untilde (splitCh '~' v).tail = v := by
  induction v with
  | nil => rfl
  | cons c v' ih =>
    by_cases hc : c = '~'
    · subst hc
      rw [splitCh_sep_cons]
      simp only [List.headI, List.tail, List.nil_append]
      cases hs : splitCh '~' v' with
      | nil => exact absurd hs (splitCh_ne_nil _ _)
      | cons x xs =>
        rw [hs] at ih
        simp only [List.headI, List.tail] at ih
        have hu : untilde (x :: xs) = ('~' :: x) ++ untilde xs := rfl
        rw [hu, List.cons_append, ih]
    · rw [splitCh_ne_cons hc]
      simp only [List.headI_cons, List.tail_cons]
      rw [List.cons_append, ih]

theorem chunk_split (code v : List Char) (hc : ∀ c ∈ code, c ≠ '~') :
    splitCh '~' (chunkOf (code, v)) =
      (code ++ (splitCh '~' v).headI) :: pairsOf (splitCh '~' v).tail := by
  have h1 : chunkOf (code, v) = code ++ escapeTilde v := rfl
  rw [h1, splitCh_sepfree_append code _ hc, split_escape]
  simp only [List.headI_cons, List.tail_cons]

theorem partsRoundTrip :
    ∀ (fs : List (List Char × List Char)), fs ≠ [] →
      (∀ f ∈ fs, f.1 ≠ [] ∧ (∀ c ∈ f.1, c ≠ '~')) →
      Ga4.unescParts (splitCh '~' (encodeFields fs)) =
        fs.map (fun f => f.1 ++ f.2) := by
  intro fs
  induction fs with
  | nil => intro h _; exact absurd rfl h
  | cons f fs' ih =>
    intro _ hall
    obtain ⟨hne, htl⟩ := hall f (by simp)
    cases fs' with
    | nil =>
      have he : encodeFields [f] = chunkOf (f.1, f.2) := rfl
      rw [he, chunk_split f.1 f.2 htl]
      have h1 : Ga4.unescParts ((f.1 ++ (splitCh '~' f.2).headI) ::
          pairsOf (splitCh '~' f.2).tail) =
          Ga4.unescGo (f.1 ++ (splitCh '~' f.2).headI)
            (pairsOf (splitCh '~' f.2).tail) := rfl
      rw [h1]
      have h2 := unescGo_pairs (splitCh '~' f.2).tail
        (f.1 ++ (splitCh '~' f.2).headI) []
      rw [List.append_nil] at h2
      rw [h2, List.append_assoc, untilde_rejoin]
      rfl
    | cons f2 fs'' =>
      have hall2 : ∀ g ∈ f2 :: fs'', g.1 ≠ [] ∧ (∀ c ∈ g.1, c ≠ '~') :=
        fun g hg => hall g (List.mem_cons_of_mem _ hg)
      have ihr := ih (by simp) hall2
      have he : encodeFields (f :: f2 :: fs'') =
          chunkOf (f.1, f.2) ++ '~' :: encodeFields (f2 :: fs'') := rfl
      rw [he, splitCh_append_sep, chunk_split f.1 f.2 htl, List.cons_append]
      have h1 : Ga4.unescParts ((f.1 ++ (splitCh '~' f.2).headI) ::
          (pairsOf (splitCh '~' f.2).tail ++
            splitCh '~' (encodeFields (f2 :: fs'')))) =
          Ga4.unescGo (f.1 ++ (splitCh '~' f.2).headI)
            (pairsOf (splitCh '~' f.2).tail ++
              splitCh '~' (encodeFields (f2 :: fs''))) := rfl
      rw [h1, unescGo_pairs, List.append_assoc, untilde_rejoin]
      obtain ⟨hne2, htl2⟩ := hall2 f2 (by simp)
      have hform : ∃ r, encodeFields (f2 :: fs'') =
          f2.1 ++ (escapeTilde f2.2 ++ r) := by
        cases fs'' with
        | nil =>
          refine ⟨[], ?_⟩
          have : encodeFields [f2] = chunkOf (f2.1, f2.2) := rfl
          rw [this]
          simp [chunkOf]
        | cons g gs =>
          refine ⟨'~' :: joinT ((g :: gs).map chunkOf), ?_⟩
          have : encodeFields (f2 :: g :: gs) =
              chunkOf (f2.1, f2.2) ++
                '~' :: joinT ((g :: gs).map chunkOf) := rfl
          rw [this]
          simp [chunkOf]
      obtain ⟨r, hr⟩ := hform
      obtain ⟨a, as, h21⟩ : ∃ a as, f2.1 = a :: as := by
        cases h21 : f2.1 with
        | nil => exact absurd h21 hne2
        | cons a as => exact ⟨a, as, rfl⟩
      have hsplitrest : splitCh '~' (encodeFields (f2 :: fs'')) =
          (a :: (as ++ (splitCh '~' (escapeTilde f2.2 ++ r)).headI)) ::
            (splitCh '~' (escapeTilde f2.2 ++ r)).tail := by
        rw [hr]
        have := splitCh_sepfree_append f2.1 (escapeTilde f2.2 ++ r) htl2
        rw [h21] at this
        rw [h21]
        rw [this, List.cons_append]
      rw [hsplitrest]
      have hstep : Ga4.unescGo (f.1 ++ f.2)
          ((a :: (as ++ (splitCh '~' (escapeTilde f2.2 ++ r)).headI)) ::
            (splitCh '~' (escapeTilde f2.2 ++ r)).tail) =
          (f.1 ++ f.2) ::
            Ga4.unescGo
              (a :: (as ++ (splitCh '~' (escapeTilde f2.2 ++ r)).headI))
              (splitCh '~' (escapeTilde f2.2 ++ r)).tail := by
        rw [Ga4.unescGo.eq_def]
        simp
      rw [hstep]
      have hback : Ga4.unescGo
          (a :: (as ++ (splitCh '~' (escapeTilde f2.2 ++ r)).headI))
          (splitCh '~' (escapeTilde f2.2 ++ r)).tail =
          Ga4.unescParts (splitCh '~' (encodeFields (f2 :: fs''))) := by
        rw [hsplitrest]
        rfl
      rw [hback, ihr]
      rfl

theorem foldl_partStep_map :
    ∀ (fs : List (List Char × List Char)) (prod : Product),
      (∀ f ∈ fs, f.1.length = 2) →
      (fs.map (fun f => f.1 ++ f.2)).foldl Ga4.partStep prod =
        fs.foldl
          (fun q f => jsSet q (Ga4.fieldKey f.1.asString) f.2.asString)
          prod := by
  intro fs
  induction fs with
  | nil => intro prod _; rfl
  | cons f fs' ih =>
    intro prod hall
    have hf := hall f (by simp)
    have hstep : Ga4.partStep prod (f.1 ++ f.2) =
        jsSet prod (Ga4.fieldKey f.1.asString) f.2.asString := by
      unfold Ga4.partStep
      rw [show (2 : Nat) = f.1.length from hf.symm, List.take_left,
        List.drop_left]
    have h1 : ((f :: fs').map (fun g => g.1 ++ g.2)).foldl Ga4.partStep
        prod = (fs'.map (fun g => g.1 ++ g.2)).foldl Ga4.partStep
          (Ga4.partStep prod (f.1 ++ f.2)) := rfl
    rw [h1, hstep, ih _ (fun g hg => hall g (List.mem_cons_of_mem _ hg))]
    rfl

/-- C6: tilde-escaping round-trip.  Encoding any non-empty field list
(section 4.1: each listed value has its literal tildes doubled, chunks
are joined on `~`) and decoding the payload reconstructs every original
value exactly; in particular the payload `id12345~nmFoo~~Bar` is the
encoding of `item_id = 12345`, `item_name = Foo~Bar` and decodes back
to exactly those fields, both at payload level and inside a full URL. -/
theorem C6_tilde_roundtrip :
    (∀ fs : List (List Char × List Char), fs ≠ [] →
      (∀ f ∈ fs, f.1.length = 2 ∧ (∀ c ∈ f.1, c ≠ '~')) →
      Ga4.decodePayload (encodeFields fs) =
        fs.foldl
          (fun prod f => jsSet prod (Ga4.fieldKey f.1.asString)
            f.2.asString)
          []) ∧
    encodeFields [("id".toList, "12345".toList),
      ("nm".toList, "Foo~Bar".toList)] = "id12345~nmFoo~~Bar".toList ∧
    Ga4.decodePayload ("id12345~nmFoo~~Bar".toList) =
      [("item_id", "12345"), ("item_name", "Foo~Bar")] ∧
    (Ga4.parse "&pr1=id12345~nmFoo~~Bar").products =
      [("1", [("item_id", "12345"), ("item_name", "Foo~Bar")])] := by
  refine ⟨?_, by decide, by decide, by decide⟩
  intro fs hne hall
  have hne1 : ∀ f ∈ fs, f.1 ≠ [] ∧ (∀ c ∈ f.1, c ≠ '~') := by
    intro f hf
    obtain ⟨hl, ht⟩ := hall f hf
    refine ⟨?_, ht⟩
    intro hnil
    rw [hnil] at hl
    simp at hl
  unfold Ga4.decodePayload
  rw [partsRoundTrip fs hne hne1]
  exact foldl_partStep_map fs [] (fun f hf => (hall f hf).1)

/-- Witness for C6: the worked example run through the round-trip
theorem itself. -/
theorem C6_tilde_roundtrip_witness :
    Ga4.decodePayload (encodeFields [("id".toList, "12345".toList),
      ("nm".toList, "Foo~Bar".toList)]) =
      [("id".toList, "12345".toList),
        ("nm".toList, "Foo~Bar".toList)].foldl
        (fun prod f => jsSet prod (Ga4.fieldKey f.1.asString) f.2.asString)
        [] := by
  exact C6_tilde_roundtrip.1 _ (by decide) (by decide)

theorem exc_bind_ok {α β : Type} (a : α) (f : α → Except Unit β) :
    (Except.ok a >>= f) = f a := rfl

theorem getProp_ok_of_truthy {v : JSVal} (h : truthy v = true)
    (k : String) : getProp v k = .ok (getV v k) := by
  cases v <;> first
    | rfl
    | (exfalso; simp [truthy] at h)

theorem chain_cons_cons (eco : JSVal) (k k2 : String) (ks : List String) :
    chain eco (k :: k2 :: ks) = jsOrV (getV eco k) (chain eco (k2 :: ks)) :=
  rfl

theorem chain_firstAction (eco : JSVal) :
    ∀ keys : List String,
      (truthy (chain eco keys) = true →
        (keys.map (getV eco)).find? truthy = some (chain eco keys)) ∧
      (truthy (chain eco keys) = false →
        (keys.map (getV eco)).find? truthy = none) := by
  intro keys
  induction keys with
  | nil =>
    constructor
    · intro h
      simp [chain, truthy] at h
    · intro _
      rfl
  | cons k ks ih =>
    cases ks with
    | nil =>
      constructor
      · intro h
        have hc : chain eco [k] = getV eco k := rfl
        rw [hc] at h ⊢
        simp [List.find?, h]
      · intro h
        have hc : chain eco [k] = getV eco k := rfl
        rw [hc] at h
        simp [List.find?, h]
    | cons k2 ks' =>
      by_cases hk : truthy (getV eco k) = true
      · have hc : chain eco (k :: k2 :: ks') = getV eco k := by
          rw [chain_cons_cons]
          simp [jsOrV, hk]
        constructor
        · intro _
          rw [hc]
          simp [List.find?, hk]
        · intro hcontra
          rw [hc] at hcontra
          rw [hcontra] at hk
          cases hk
      · have hkf : truthy (getV eco k) = false := by
          cases hb : truthy (getV eco k)
          · rfl
          · exact absurd hb hk
        have hc : chain eco (k :: k2 :: ks') = chain eco (k2 :: ks') := by
          rw [chain_cons_cons]
          simp [jsOrV, hkf]
        constructor
        · intro h
          rw [hc] at h ⊢
          have hfind := ih.1 h
          have hmap : (k :: k2 :: ks').map (getV eco) =
              getV eco k :: (k2 :: ks').map (getV eco) := rfl
          rw [hmap, List.find?_cons_of_neg, hfind]
          simp [hkf]
        · intro h
          rw [hc] at h
          have hfind := ih.2 h
          have hmap : (k :: k2 :: ks').map (getV eco) =
              getV eco k :: (k2 :: ks').map (getV eco) := rfl
          rw [hmap, List.find?_cons_of_neg, hfind]
          simp [hkf]

theorem exc_pure {β : Type} (a : β) :
    (pure a : Except Unit β) = Except.ok a := rfl

theorem idsch_dl_obj (fields : List (String × JSVal)) :
    SchemaId.identifySchema .dataLayer (.obj fields) =
      (let eco := (fields.lookup "ecommerce").getD .undefined
       if !truthy eco then pure (JSVal.str "unknown")
       else
         (getProp eco "items") >>= fun i1 =>
         (getProp eco "transaction_id") >>= fun i2 =>
         (getProp eco "value") >>= fun i3 =>
         if truthy i1 || truthy i2 || truthy i3 then
           pure (JSVal.str "ga4-gtm")
         else
           let actionObject := chain eco SchemaId.actionKeys
           if truthy actionObject then
             (getProp actionObject "actionField") >>= fun f1 =>
             (getProp actionObject "products") >>= fun f2 =>
             (getProp actionObject "promotions") >>= fun f3 =>
             if truthy f1 || truthy f2 || truthy f3 then
               pure (JSVal.str "ua-gtm")
             else
               (getProp actionObject "items") >>= fun it =>
               if truthy it then pure (JSVal.str "ga4-gtm")
               else
                 (getProp eco "impressions") >>= fun imp =>
                 if truthy imp then pure (JSVal.str "ua-gtm")
                 else pure (JSVal.str "unknown")
           else
             (getProp eco "impressions") >>= fun imp =>
             if truthy imp then pure (JSVal.str "ua-gtm")
             else pure (JSVal.str "unknown")) := rfl

/-- C5: for the structured-push kind the classifier follows the
specification's precedence chain exactly: strongest unified markers
(`items`/`transaction_id`/`value` on `ecommerce`) first, then the first
present action sub-object in the fixed order decides via
`actionField`/`products`/`promotions` (`ua-gtm`) else `items`
(`ga4-gtm`), then the `impressions` fallback, then `unknown`. -/
theorem C5_structured_push_chain (fields : List (String × JSVal)) :
    SchemaId.identifySchema .dataLayer (.obj fields) =
      .ok (.str (SchemaId.specChainDL fields)) := by
  rw [idsch_dl_obj]
  show (if !truthy ((fields.lookup "ecommerce").getD .undefined) then _ else _) =
    _
  by_cases h0 : truthy ((fields.lookup "ecommerce").getD .undefined) = true
  case neg =>
    have h0f : truthy ((fields.lookup "ecommerce").getD .undefined) = false := by
      cases hb : truthy ((fields.lookup "ecommerce").getD .undefined)
      · rfl
      · exact absurd hb h0
    simp only [h0f, Bool.not_false, if_true, SchemaId.specChainDL, h0f]
    rfl
  case pos =>
    set eco := (fields.lookup "ecommerce").getD JSVal.undefined with heco
    simp only [h0, Bool.not_true, Bool.false_eq_true, if_false,
      getProp_ok_of_truthy h0, exc_bind_ok]
    by_cases h1 : (truthy (getV eco "items") ||
        truthy (getV eco "transaction_id") ||
        truthy (getV eco "value")) = true
    · simp only [h1, if_true, SchemaId.specChainDL, h0, Bool.not_true,
        Bool.false_eq_true, if_false, ← heco]
      rfl
    · have h1f := Bool.eq_false_iff.mpr h1
      simp only [h1f, Bool.false_eq_true, if_false, SchemaId.specChainDL,
        h0, Bool.not_true, ← heco]
      set act := chain eco SchemaId.actionKeys with hact
      by_cases hA : truthy act = true
      · have hfind := (chain_firstAction eco SchemaId.actionKeys).1 hA
        simp only [hA, if_true, getProp_ok_of_truthy hA, exc_bind_ok,
          SchemaId.firstAction, ← hact, hfind]
        by_cases hf : (truthy (getV act "actionField") ||
            truthy (getV act "products") ||
            truthy (getV act "promotions")) = true
        · simp only [hf, if_true, exc_pure]
        · have hff := Bool.eq_false_iff.mpr hf
          simp only [hff, Bool.false_eq_true, if_false]
          by_cases hit : truthy (getV act "items") = true
          · simp only [hit, if_true, exc_pure]
          · have hitf := Bool.eq_false_iff.mpr hit
            simp only [hitf, Bool.false_eq_true, if_false]
            by_cases himp : truthy (getV eco "impressions") = true
            · simp only [himp, if_true, exc_pure]
            · have himpf := Bool.eq_false_iff.mpr himp
              simp only [himpf, Bool.false_eq_true, if_false, exc_pure]
      · have hAf : truthy act = false := by
          cases hb : truthy act
          · rfl
          · exact absurd hb hA
        have hfind := (chain_firstAction eco SchemaId.actionKeys).2 hAf
        simp only [hAf, Bool.false_eq_true, if_false,
          SchemaId.firstAction, ← hact, hfind]
        by_cases himp : truthy (getV eco "impressions") = true
        · simp only [himp, if_true, exc_pure]
        · have himpf := Bool.eq_false_iff.mpr himp
          simp only [himpf, Bool.false_eq_true, if_false, exc_pure]

theorem containsSub_iff (pat : List Char) :
    ∀ s : List Char,
      containsSub pat s = true ↔ ∃ a b, s = a ++ pat ++ b := by
  intro s
  induction s with
  | nil =>
    constructor
    · intro h
      simp [containsSub] at h
      exact ⟨[], [], by simp [h]⟩
    · rintro ⟨a, b, hab⟩
      have ha : a = [] := by
        cases a
        · rfl
        · simp at hab
      have hp : pat = [] := by
        subst ha
        cases pat
        · rfl
        · simp at hab
      simp [containsSub, hp]
  | cons c cs ih =>
    constructor
    · intro h
      have hsplit : pat.isPrefixOf (c :: cs) = true ∨
          containsSub pat cs = true := by
        have hx : containsSub pat (c :: cs) =
            (pat.isPrefixOf (c :: cs) || containsSub pat cs) := rfl
        rw [hx] at h
        exact Bool.or_eq_true_iff.mp h
      rcases hsplit with hpre | hrest
      · have := List.isPrefixOf_iff_prefix.mp hpre
        obtain ⟨t, ht⟩ := this
        exact ⟨[], t, by simp [← ht]⟩
      · obtain ⟨a, b, hab⟩ := ih.mp hrest
        exact ⟨c :: a, b, by simp [hab]⟩
    · rintro ⟨a, b, hab⟩
      have hdrop : pat.isPrefixOf ((c :: cs).drop a.length) = true := by
        rw [hab]
        have : (a ++ pat ++ b).drop a.length = pat ++ b := by
          rw [List.append_assoc, List.drop_left]
        rw [this]
        exact isPrefixOf_append_self pat b
      exact containsSub_of_prefix_drop pat (c :: cs) a.length hdrop

theorem uaTest_of_split (pat : List Char) :
    ∀ (x r : List Char), containsSub pat (r.takeWhile dotCh) = true →
      MP.uaTest pat (x ++ "/collect?".toList ++ r) = true := by
  intro x
  induction x with
  | nil =>
    intro r h
    have hshape : ([] : List Char) ++ "/collect?".toList ++ r =
        "/collect?".toList ++ r := by simp
    rw [hshape]
    have hpre : ("/collect?".toList).isPrefixOf ("/collect?".toList ++ r) =
        true := isPrefixOf_append_self _ _
    have hdrop : ("/collect?".toList ++ r).drop 9 = r := by
      have := List.drop_left ("/collect?".toList) r
      simpa using this
    have hx : MP.uaTest pat ("/collect?".toList ++ r) =
        ((("/collect?".toList).isPrefixOf ("/collect?".toList ++ r) &&
          containsSub pat ((("/collect?".toList ++ r).drop 9).takeWhile
            dotCh)) ||
          MP.uaTest pat ("collect?".toList ++ r)) := rfl
    rw [hx, hpre, hdrop, h]
    rfl
  | cons x0 x' ih =>
    intro r h
    have hx : MP.uaTest pat ((x0 :: x') ++ "/collect?".toList ++ r) =
        ((("/collect?".toList).isPrefixOf
            ((x0 :: x') ++ "/collect?".toList ++ r) &&
          containsSub pat
            ((((x0 :: x') ++ "/collect?".toList ++ r).drop 9).takeWhile
              dotCh)) ||
          MP.uaTest pat (x' ++ "/collect?".toList ++ r)) := rfl
    rw [hx, ih r h]
    simp

/-- C10 (counterexample): the predicates' overlap is not purely
positional.  A URL that contains the Protocol-A marker and carries
`&el=GTM` after it can still fail `isUaLegacyHit`, because the regex
`.` does not match a line terminator in between. -/
theorem C10_overlap_counterexample :
    Ga4.isGa4Hit "/g/collect?\n&el=GTM" = true ∧
    "/g/collect?\n&el=GTM" = "/g/collect?" ++ "\n" ++ "&el=GTM" ∧
    MP.isUaLegacyHit "/g/collect?\n&el=GTM" = false := by
  exact ⟨by decide, rfl, by decide⟩

/-- C10 (amended): every URL containing `/g/collect?` contains
`/collect?`; carrying `&el=GTM` (resp. `&el=GA4`) after the path with
no line terminator in between makes the Protocol-B predicates match as
well; and one URL satisfies all three predicates at once. -/
theorem C10_predicates_overlap :
    (∀ u : String, containsSub ("/g/collect?".toList) u.toList = true →
      containsSub ("/collect?".toList) u.toList = true) ∧
    (∀ a b c : List Char, (∀ ch ∈ b, dotCh ch = true) →
      MP.isUaLegacyHit (String.mk (a ++ "/g/collect?".toList ++ b ++
        "&el=GTM".toList ++ c)) = true) ∧
    (∀ a b c : List Char, (∀ ch ∈ b, dotCh ch = true) →
      MP.isUaGa4Hit (String.mk (a ++ "/g/collect?".toList ++ b ++
        "&el=GA4".toList ++ c)) = true) ∧
    Ga4.isGa4Hit "/g/collect?&el=GTM&el=GA4" = true ∧
    MP.isUaLegacyHit "/g/collect?&el=GTM&el=GA4" = true ∧
    MP.isUaGa4Hit "/g/collect?&el=GTM&el=GA4" = true := by
  refine ⟨?_, ?_, ?_, by decide, by decide, by decide⟩
  · intro u h
    obtain ⟨a, b, hab⟩ := (containsSub_iff _ u.toList).mp h
    apply (containsSub_iff _ u.toList).mpr
    refine ⟨a ++ "/g".toList, b, ?_⟩
    rw [hab]
    simp
  · intro a b c hb
    have hpatdot : ∀ ch ∈ ("&el=GTM".toList), dotCh ch = true := by decide
    have hshape : a ++ "/g/collect?".toList ++ b ++ "&el=GTM".toList ++ c =
        (a ++ "/g".toList) ++ "/collect?".toList ++
          (b ++ ("&el=GTM".toList ++ c)) := by
      have hdec : "/g/collect?".toList =
          "/g".toList ++ "/collect?".toList := rfl
      rw [hdec]
      simp [List.append_assoc]
    have hcontains : containsSub ("&el=GTM".toList)
        ((b ++ ("&el=GTM".toList ++ c)).takeWhile dotCh) = true := by
      rw [takeWhile_append_all b _ hb, takeWhile_append_all _ c hpatdot]
      apply (containsSub_iff _ _).mpr
      exact ⟨b, c.takeWhile dotCh, by simp [List.append_assoc]⟩
    have hrun := uaTest_of_split ("&el=GTM".toList) (a ++ "/g".toList)
      (b ++ ("&el=GTM".toList ++ c)) hcontains
    show MP.uaTest ("&el=GTM".toList)
      (a ++ "/g/collect?".toList ++ b ++ "&el=GTM".toList ++ c) = true
    rw [hshape]
    exact hrun
  · intro a b c hb
    have hpatdot : ∀ ch ∈ ("&el=GA4".toList), dotCh ch = true := by decide
    have hshape : a ++ "/g/collect?".toList ++ b ++ "&el=GA4".toList ++ c =
        (a ++ "/g".toList) ++ "/collect?".toList ++
          (b ++ ("&el=GA4".toList ++ c)) := by
      have hdec : "/g/collect?".toList =
          "/g".toList ++ "/collect?".toList := rfl
      rw [hdec]
      simp [List.append_assoc]
    have hcontains : containsSub ("&el=GA4".toList)
        ((b ++ ("&el=GA4".toList ++ c)).takeWhile dotCh) = true := by
      rw [takeWhile_append_all b _ hb, takeWhile_append_all _ c hpatdot]
      apply (containsSub_iff _ _).mpr
      exact ⟨b, c.takeWhile dotCh, by simp [List.append_assoc]⟩
    have hrun := uaTest_of_split ("&el=GA4".toList) (a ++ "/g".toList)
      (b ++ ("&el=GA4".toList ++ c)) hcontains
    show MP.uaTest ("&el=GA4".toList)
      (a ++ "/g/collect?".toList ++ b ++ "&el=GA4".toList ++ c) = true
    rw [hshape]
    exact hrun

/-- Witness for C10's amended statement at concrete strings. -/
theorem C10_predicates_overlap_witness :
    MP.isUaLegacyHit (String.mk ("x".toList ++ "/g/collect?".toList ++
      "y".toList ++ "&el=GTM".toList ++ "z".toList)) = true ∧
    MP.isUaGa4Hit (String.mk ("x".toList ++ "/g/collect?".toList ++
      "y".toList ++ "&el=GA4".toList ++ "z".toList)) = true ∧
    containsSub ("/collect?".toList)
      ("https://a/g/collect?x=1").toList = true := by
  exact ⟨C10_predicates_overlap.2.1 "x".toList "y".toList "z".toList
      (by decide),
    C10_predicates_overlap.2.2.1 "x".toList "y".toList "z".toList
      (by decide),
    C10_predicates_overlap.1 "https://a/g/collect?x=1" (by decide)⟩
